import Mathlib

/-!
dynastore: session serializers (`serializers.go`)

A shallow embedding of `codecSerializer` and `gobSerializer`, the two
strategies that turn a `sessions.Session` into a DynamoDB attribute record
and back.

* Go's two results `(map, error)` are a pair of options; a `nil` map is `none`.
* `unmarshal` writes through its `*sessions.Session` argument, so it is a
  function from the session before the call to the error returned and the
  session after the call.
* Functions of imported packages whose sources are outside the repository
  (`attributevalue`, `encoding/gob`, `encoding/base64`) are fields of `Lib`;
  `securecookie.Codec` is an interface, so a codec is a pair of functions;
  `securecookie.EncodeMulti` and `securecookie.DecodeMulti` are the loops
  over the codec chain of that package.
-/

namespace Dynastore

/-! ## Data model -/

/-- Error values produced by imported packages (`securecookie`, `attributevalue`,
`gob`, `base64`). `multi` is `securecookie.MultiError`. -/
inductive LibError where
  | msg (text : String)
  | multi (errs : List LibError)

/-- The `error` results a serializer can return: the four package-level
sentinel errors, or an error of an imported package handed back as it is. -/
inductive Error where
  | errNotFound
  | errMalformedSession
  | errEncodeFailed
  | errDecodeFailed
  | ext (err : LibError)

/-- The interface `types.AttributeValue` of the DynamoDB SDK: its union members,
and `nil` for an interface value holding nothing. -/
inductive AttributeValue where
  | nil
  | S (Value : String)
  | N (Value : String)
  | B (Value : List UInt8)
  | BOOL (Value : Bool)
  | NULL (Value : Bool)
  | SS (Value : List String)
  | NS (Value : List String)
  | BS (Value : List (List UInt8))
  | L (Value : List AttributeValue)
  | M (Value : List (String × AttributeValue))

/-- The entries of a non-nil `map[string]types.AttributeValue`. -/
abbrev Entries := List (String × AttributeValue)

/-- Look a key up: `v, ok := m[k]`. -/
def Entries.get? : Entries → String → Option AttributeValue
  | [], _ => none
  | (k, v) :: rest, key => if k = key then some v else Entries.get? rest key

/-- Assign a key: `m[k] = v` replaces the entry of an existing key and adds one otherwise. -/
def Entries.set : Entries → String → AttributeValue → Entries
  | [], key, val => [(key, val)]
  | (k, v) :: rest, key, val =>
    if k = key then (k, val) :: rest else (k, v) :: Entries.set rest key val

/-- Go value of type `map[string]types.AttributeValue`: `none` is the nil map. -/
abbrev Record := Option Entries

/-- Number of entries, `len(in)`; the nil map has length 0. -/
def Record.len : Record → Nat
  | none => 0
  | some es => es.length

/-- Read of a key, `in[k]`; reading the nil map finds nothing. -/
def Record.get? : Record → String → Option AttributeValue
  | none, _ => none
  | some es, key => es.get? key

/-- The exported fields of `sessions.Session`; `Vals` stands for
`map[interface{}]interface{}` and `Opts` for `sessions.Options`. `Options` is a
pointer: `none` is nil. The unexported fields `store` and `name` are never
touched by the serializers. -/
structure Session (Vals Opts : Type) where
  ID : String
  Values : Vals
  Options : Option Opts
  IsNew : Bool

/-- Modelled from the spec: the constants `idField`, `valuesField` and
`optionsField` are declared outside `serializers.go`; the record field mapping
is a fixed set of three different attribute names (identity, values, options). -/
structure FieldNames where
  idField : String
  valuesField : String
  optionsField : String
  id_ne_values : idField ≠ valuesField
  id_ne_options : idField ≠ optionsField
  values_ne_options : valuesField ≠ optionsField

/-- Interface `securecookie.Codec`. `Decode name value dst` writes through `dst`:
it returns the error (if any) and the content of `dst` after the call. -/
structure Codec (Vals : Type) where
  Encode : String → Vals → Except LibError String
  Decode : String → String → Vals → Option LibError × Vals

/-- The imported functions the serializers call, on the arguments they are
called with. -/
structure Lib (Vals Opts : Type) where
  /-- the literal `map[interface{}]interface{}{}` -/
  emptyValues : Vals
  /-- `attributevalue.Unmarshal(av, &s)` with `s` a string, for `av` not a string member -/
  unmarshalStringOther : AttributeValue → Except LibError String
  /-- `attributevalue.Marshal(session.Options)` on a non-nil pointer -/
  marshalOptions : Opts → Except LibError AttributeValue
  /-- `attributevalue.Unmarshal(av, options)` into a fresh `&sessions.Options{}` -/
  unmarshalOptions : AttributeValue → Except LibError Opts
  /-- `gob.NewEncoder(buf).Encode(values)` followed by `buf.Bytes()` -/
  gobEncode : Vals → Except LibError (List UInt8)
  /-- `gob.NewDecoder(bytes.NewReader(data)).Decode(&values)` into a fresh empty map -/
  gobDecode : List UInt8 → Except LibError Vals
  /-- `base64.StdEncoding.EncodeToString` -/
  base64Encode : List UInt8 → String
  /-- `base64.StdEncoding.DecodeString` -/
  base64Decode : String → Except LibError (List UInt8)

/-! ## Imported functions with a fixed behaviour -/

/-- `securecookie.errNoCodecs`. -/
def errNoCodecs : LibError := .msg "securecookie: no codecs provided"

/-- `attributevalue.Unmarshal(av, &s)` for a string `s`: a string member sets
`s` to its value; every other member is left to the library. -/
def unmarshalString {Vals Opts : Type} (L : Lib Vals Opts) : AttributeValue → Except LibError String
  | .S v => .ok v
  | av => L.unmarshalStringOther av

/-- The loop of `securecookie.EncodeMulti`: the codecs are tried in order and the
first one that encodes without error gives the result. -/
def EncodeMulti.loop {Vals : Type} (name : String) (value : Vals) :
    List (Codec Vals) → List LibError → Except LibError String
  | [], errors => .error (.multi errors)
  | codec :: rest, errors =>
    match codec.Encode name value with
    | .ok encoded => .ok encoded
    | .error err => EncodeMulti.loop name value rest (errors ++ [err])

/-- `securecookie.EncodeMulti(name, value, codecs...)`. -/
def EncodeMulti {Vals : Type} (name : String) (value : Vals) (codecs : List (Codec Vals)) :
    Except LibError String :=
  if codecs.length = 0 then .error errNoCodecs
  else EncodeMulti.loop name value codecs []

/-- The loop of `securecookie.DecodeMulti`: every codec is handed the same `dst`;
the first one that decodes without error ends the loop. -/
def DecodeMulti.loop {Vals : Type} (name value : String) :
    List (Codec Vals) → Vals → List LibError → Option LibError × Vals
  | [], dst, errors => (some (.multi errors), dst)
  | codec :: rest, dst, errors =>
    match codec.Decode name value dst with
    | (none, dst1) => (none, dst1)
    | (some err, dst1) => DecodeMulti.loop name value rest dst1 (errors ++ [err])

/-- `securecookie.DecodeMulti(name, value, dst, codecs...)`. -/
def DecodeMulti {Vals : Type} (name value : String) (dst : Vals) (codecs : List (Codec Vals)) :
    Option LibError × Vals :=
  if codecs.length = 0 then (some errNoCodecs, dst)
  else DecodeMulti.loop name value codecs dst []

/-! ## The serializers -/

/-- `codecSerializer.marshal`: the record and the error returned. -/
def codecSerializer.marshal {Vals Opts : Type} (F : FieldNames) (L : Lib Vals Opts)
    (codecs : List (Codec Vals)) (name : String) (session : Session Vals Opts) :
    Record × Option Error :=
  match EncodeMulti name session.Values codecs with
  | .error _ => (none, some .errEncodeFailed)
  | .ok values =>
    let av : Entries := (Entries.set [] F.idField (.S session.ID)).set F.valuesField (.S values)
    match session.Options with
    | none => (some av, none)
    | some o =>
      match L.marshalOptions o with
      | .error err => (none, some (.ext err))
      | .ok options => (some (av.set F.optionsField options), none)

/-- `codecSerializer.unmarshal`: the error returned and the session after the call. -/
def codecSerializer.unmarshal {Vals Opts : Type} (F : FieldNames) (L : Lib Vals Opts)
    (codecs : List (Codec Vals)) (name : String) (inp : Record) (session : Session Vals Opts) :
    Option Error × Session Vals Opts :=
  if inp.len = 0 then (some .errNotFound, session)
  else
    match inp.get? F.idField with
    | none => (some .errMalformedSession, session)
    | some av =>
      match unmarshalString L av with
      | .error _ => (some .errMalformedSession, session)
      | .ok id =>
        match inp.get? F.valuesField with
        | none => (some .errMalformedSession, session)
        | some av1 =>
          match unmarshalString L av1 with
          | .error _ => (some .errMalformedSession, session)
          | .ok pl =>
            match DecodeMulti name pl L.emptyValues codecs with
            | (some _, _) => (some .errDecodeFailed, session)
            | (none, values) =>
              let session1 := { session with IsNew := false, ID := id, Values := values }
              match inp.get? F.optionsField with
              | none => (none, session1)
              | some av2 =>
                match L.unmarshalOptions av2 with
                | .error err => (some (.ext err), session1)
                | .ok options => (none, { session1 with Options := some options })

/-- `gobSerializer.marshal`: the record and the error returned. -/
def gobSerializer.marshal {Vals Opts : Type} (F : FieldNames) (L : Lib Vals Opts)
    (_name : String) (session : Session Vals Opts) : Record × Option Error :=
  match L.gobEncode session.Values with
  | .error _ => (none, some .errEncodeFailed)
  | .ok buf =>
    let values := L.base64Encode buf
    let av : Entries := (Entries.set [] F.idField (.S session.ID)).set F.valuesField (.S values)
    match session.Options with
    | none => (some av, none)
    | some o =>
      match L.marshalOptions o with
      | .error err => (none, some (.ext err))
      | .ok options => (some (av.set F.optionsField options), none)

/-- `gobSerializer.unmarshal`: the error returned and the session after the call. -/
def gobSerializer.unmarshal {Vals Opts : Type} (F : FieldNames) (L : Lib Vals Opts)
    (_name : String) (inp : Record) (session : Session Vals Opts) :
    Option Error × Session Vals Opts :=
  if inp.len = 0 then (some .errNotFound, session)
  else
    match inp.get? F.idField with
    | none => (some .errMalformedSession, session)
    | some av =>
      match unmarshalString L av with
      | .error _ => (some .errMalformedSession, session)
      | .ok id =>
        match inp.get? F.valuesField with
        | none => (some .errMalformedSession, session)
        | some av1 =>
          match unmarshalString L av1 with
          | .error _ => (some .errMalformedSession, session)
          | .ok pl =>
            match L.base64Decode pl with
            | .error _ => (some .errDecodeFailed, session)
            | .ok data =>
              match L.gobDecode data with
              | .error _ => (some .errDecodeFailed, session)
              | .ok values =>
                let session1 := { session with IsNew := false, ID := id, Values := values }
                match inp.get? F.optionsField with
                | none => (none, session1)
                | some av2 =>
                  match L.unmarshalOptions av2 with
                  | .error err => (some (.ext err), session1)
                  | .ok options => (none, { session1 with Options := some options })

/-- The record holding an identity, a payload and, when given, the options
attribute: the shape in which the results of `marshal` are stated. -/
def recordOf (F : FieldNames) (id payload : String) : Option AttributeValue → Entries
  | none => [(F.idField, .S id), (F.valuesField, .S payload)]
  | some av => [(F.idField, .S id), (F.valuesField, .S payload), (F.optionsField, av)]

/-- One position of a text changed: `b` is `a` with the character after `pre`
replaced by another one. -/
def oneChanged (a b : String) : Prop :=
  ∃ (pre post : List Char) (x y : Char),
    x ≠ y ∧ a.data = pre ++ x :: post ∧ b.data = pre ++ y :: post

/-- The checks at the head of an `unmarshal` function, stated once so that the
two serializers can be compared with it: the emptiness test, then the identity
field and the values field read as strings. -/
def readFields {Vals Opts : Type} (F : FieldNames) (L : Lib Vals Opts) (inp : Record) :
    Except Error (String × String) :=
  if inp.len = 0 then .error .errNotFound
  else
    match inp.get? F.idField with
    | none => .error .errMalformedSession
    | some av =>
      match unmarshalString L av with
      | .error _ => .error .errMalformedSession
      | .ok id =>
        match inp.get? F.valuesField with
        | none => .error .errMalformedSession
        | some av1 =>
          match unmarshalString L av1 with
          | .error _ => .error .errMalformedSession
          | .ok pl => .ok (id, pl)

/-- The end of an `unmarshal` function, stated once: what is returned and stored
once the identity `id` and the value map `values` are decoded. -/
def storeDecoded {Vals Opts : Type} (F : FieldNames) (L : Lib Vals Opts) (inp : Record)
    (id : String) (values : Vals) (session : Session Vals Opts) :
    Option Error × Session Vals Opts :=
  match inp.get? F.optionsField with
  | none => (none, { session with IsNew := false, ID := id, Values := values })
  | some av2 =>
    match L.unmarshalOptions av2 with
    | .error err => (some (.ext err), { session with IsNew := false, ID := id, Values := values })
    | .ok options => (none, { ID := id, Values := values, Options := some options, IsNew := false })

/-! ## A concrete configuration

Small executable stand-ins for the imported functions, used to run the
serializers on concrete sessions and records. -/

namespace Demo

/-- Session values: a map from strings to strings. -/
abbrev Vals := List (String × String)

/-- A cut of `sessions.Options`. -/
structure Options where
  Path : String
  Secure : Bool

/-- The attribute names. -/
def fields : FieldNames where
  idField := "id"
  valuesField := "values"
  optionsField := "options"
  id_ne_values := by decide
  id_ne_options := by decide
  values_ne_options := by decide

/-- Text form of a value map: `k=v;` for every entry. -/
def render : Vals → List Char
  | [] => []
  | (k, v) :: rest => k.data ++ '=' :: (v.data ++ ';' :: render rest)

/-- A character that may occur in a key or a value. -/
def plainChar (c : Char) : Bool := c != '=' && c != ';'

/-- The maps that have a text form. -/
def encodable (v : Vals) : Bool :=
  v.all fun p => p.1.data.all plainChar && p.2.data.all plainChar

/-- Inverse of `render`: `key` is the key read so far once `=` was seen, `acc`
the characters of the current word in reverse. -/
def parse : List Char → Option (List Char) → List Char → Option Vals
  | [], none, [] => some []
  | [], _, _ => none
  | c :: cs, none, acc =>
    if c = '=' then parse cs (some acc.reverse) []
    else if c = ';' then none
    else parse cs none (c :: acc)
  | c :: cs, some k, acc =>
    if c = ';' then (parse cs none []).map fun r => (String.mk k, String.mk acc.reverse) :: r
    else if c = '=' then none
    else parse cs (some k) (c :: acc)

/-- The head of an authenticated payload: `key|name|`. -/
def header (key name : String) : List Char :=
  key.data ++ '|' :: (name.data ++ ['|'])

/-- A codec that authenticates with `key`: the payload is `key|name|text`, and
decoding checks both the key and the name before it reads the text. As with
`securecookie.MaxLength`, a payload longer than `maxLength` is refused on both
sides unless `maxLength` is 0. -/
def keyedCodec (key : String) (maxLength : Nat) : Codec Vals where
  Encode name v :=
    if encodable v then
      let b := header key name ++ render v
      if maxLength ≠ 0 ∧ b.length > maxLength then
        .error (.msg "securecookie: the value is too long")
      else .ok (String.mk b)
    else .error (.msg "securecookie: the value could not be encoded")
  Decode name value dst :=
    if maxLength ≠ 0 ∧ value.data.length > maxLength then
      (some (.msg "securecookie: the value is too long"), dst)
    else if (header key name).isPrefixOf value.data then
      match parse (value.data.drop (header key name).length) none [] with
      | some v => (none, v)
      | none => (some (.msg "securecookie: the value is not valid"), dst)
    else (some (.msg "securecookie: the value is not valid"), dst)

/-- A codec without a hash key, as `securecookie.New(nil, nil)`: it refuses to
encode and to decode. -/
def unkeyedCodec : Codec Vals where
  Encode _ _ := .error (.msg "securecookie: hash key is not set")
  Decode _ _ dst := (some (.msg "securecookie: hash key is not set"), dst)

/-- A codec with a minimum age, as `securecookie.New(key, nil).MinAge(n)`: it
encodes like `keyedCodec` and refuses to decode a value that is younger than
its minimum age, as every value is right after it was encoded. -/
def minAgeCodec (key : String) : Codec Vals where
  Encode := (keyedCodec key 0).Encode
  Decode _ _ dst := (some (.msg "securecookie: timestamp is too new"), dst)

/-- A codec that does not look at `name`: the payload is the text form alone. -/
def plainCodec : Codec Vals where
  Encode _ v :=
    if encodable v then .ok (String.mk (render v))
    else .error (.msg "the value could not be encoded")
  Decode _ value dst :=
    match parse value.data none [] with
    | some v => (none, v)
    | none => (some (.msg "the value is not valid"), dst)

/-- The base64 alphabet of `base64.StdEncoding`. -/
def alphabet : List Char :=
  "ABCDEFGHIJKLMNOPQRSTUVWXYZabcdefghijklmnopqrstuvwxyz0123456789+/".data

/-- The character of a 6-bit group. -/
def sextet (n : Nat) : Char := alphabet.getD (n % 64) 'A'

/-- Standard base64 with padding. -/
def base64Chars : List UInt8 → List Char
  | [] => []
  | [a] =>
    let n := a.toNat * 65536
    [sextet (n / 262144), sextet (n / 4096), '=', '=']
  | [a, b] =>
    let n := a.toNat * 65536 + b.toNat * 256
    [sextet (n / 262144), sextet (n / 4096), sextet (n / 64), '=']
  | a :: b :: c :: rest =>
    let n := a.toNat * 65536 + b.toNat * 256 + c.toNat
    sextet (n / 262144) :: sextet (n / 4096) :: sextet (n / 64) :: sextet n :: base64Chars rest

/-- The 6-bit group of a character of the alphabet. -/
def unsextet (c : Char) : Option Nat :=
  let i := alphabet.indexOf c
  if i < 64 then some i else none

/-- Decoder of standard base64 with padding, on groups of four characters. -/
def unbase64Chars : List Char → Option (List UInt8)
  | [] => some []
  | [c0, c1, '=', '='] =>
    match unsextet c0, unsextet c1 with
    | some x0, some x1 => some [UInt8.ofNat ((x0 * 64 + x1) / 16)]
    | _, _ => none
  | [c0, c1, c2, '='] =>
    match unsextet c0, unsextet c1, unsextet c2 with
    | some x0, some x1, some x2 =>
      let n := (x0 * 64 + x1) * 64 + x2
      some [UInt8.ofNat (n / 1024), UInt8.ofNat (n / 4)]
    | _, _, _ => none
  | c0 :: c1 :: c2 :: c3 :: rest =>
    match unsextet c0, unsextet c1, unsextet c2, unsextet c3, unbase64Chars rest with
    | some x0, some x1, some x2, some x3, some bs =>
      let n := ((x0 * 64 + x1) * 64 + x2) * 64 + x3
      some (UInt8.ofNat (n / 65536) :: UInt8.ofNat (n / 256) :: UInt8.ofNat n :: bs)
    | _, _, _, _, _ => none
  | _ => none

/-- A codec in the layout of `securecookie`: the authenticated text `key|name|text`
is wrapped in base64 on the way out and unwrapped before the key and the name
are checked. -/
def sealedCodec (key : String) : Codec Vals where
  Encode name v :=
    if encodable v then
      .ok (String.mk (base64Chars ((header key name ++ render v).map fun c => UInt8.ofNat c.toNat)))
    else .error (.msg "securecookie: the value could not be encoded")
  Decode name value dst :=
    match unbase64Chars value.data with
    | none => (some (.msg "securecookie: the value is not valid"), dst)
    | some data =>
      let b := data.map fun x => Char.ofNat x.toNat
      if (header key name).isPrefixOf b then
        match parse (b.drop (header key name).length) none [] with
        | some v => (none, v)
        | none => (some (.msg "securecookie: the value is not valid"), dst)
      else (some (.msg "securecookie: the value is not valid"), dst)

/-- The imported functions: string attributes only for strings, options as a
map attribute, the text form of the values as their binary encoding. -/
def lib : Lib Vals Options where
  emptyValues := []
  unmarshalStringOther _ := .error (.msg "unmarshal failed, cannot unmarshal to string")
  marshalOptions o := .ok (.M [("Path", .S o.Path), ("Secure", .BOOL o.Secure)])
  unmarshalOptions
    | .M [("Path", .S p), ("Secure", .BOOL b)] => .ok { Path := p, Secure := b }
    | _ => .error (.msg "unmarshal failed, cannot unmarshal to Options")
  gobEncode v :=
    if encodable v then .ok ((render v).map fun c => UInt8.ofNat c.toNat)
    else .error (.msg "gob: type not registered for interface")
  gobDecode data :=
    match parse (data.map fun b => Char.ofNat b.toNat) none [] with
    | some v => .ok v
    | none => .error (.msg "gob: decoding failed")
  base64Encode data := String.mk (base64Chars data)
  base64Decode s :=
    match unbase64Chars s.data with
    | some data => .ok data
    | none => .error (.msg "illegal base64 data")

/-- A session with one value and no options. -/
def alice : Session Vals Options :=
  { ID := "s-1", Values := [("user", "alice")], Options := none, IsNew := true }

/-- A session with one value and options. -/
def bob : Session Vals Options :=
  { ID := "s-2", Values := [("user", "bob")], Options := some { Path := "/", Secure := true },
    IsNew := true }

/-- A session whose values have a long text form. -/
def carol : Session Vals Options :=
  { ID := "s-3", Values := [("user", "carol"), ("theme", "dark")], Options := none,
    IsNew := true }

/-- A session that is in use: it was loaded before and holds values. -/
def loaded : Session Vals Options :=
  { ID := "s-0", Values := [("cart", "3")], Options := none, IsNew := true }

/-- A cleared session, as a caller hands to `unmarshal`. -/
def blank : Session Vals Options :=
  { ID := "", Values := [], Options := none, IsNew := true }

/-- A session holding a key that has no text form. -/
def dave : Session Vals Options :=
  { ID := "s-4", Values := [("a=b", "c")], Options := none, IsNew := true }

/-- The imported functions with an options transcoder that refuses, on the way
out, options without a path. -/
def pickyLib : Lib Vals Options :=
  { lib with
    marshalOptions := fun o =>
      if o.Path = "" then .error (.msg "marshal failed, the path is empty")
      else lib.marshalOptions o }

/-- A session whose options have no path. -/
def erin : Session Vals Options :=
  { ID := "s-5", Values := [("user", "erin")], Options := some { Path := "", Secure := false },
    IsNew := true }

end Demo

/-! ## Standard base64 as Go decodes it -/

/-- The characters of a text that `base64.StdEncoding` looks at: carriage
returns and line feeds are skipped by its decoder. -/
def skipNewlines (s : String) : List Char :=
  s.data.filter fun c => c != '\r' && c != '\n'

/-- The function `base64.StdEncoding.DecodeString` of Go: carriage returns and
line feeds are skipped, and what is left is decoded in groups of four
characters with padding. -/
def stdDecodeString (s : String) : Except LibError (List UInt8) :=
  match Demo.unbase64Chars (skipNewlines s) with
  | some data => .ok data
  | none => .error (.msg "illegal base64 data")

/-- Valid standard base64, in the words of the claim: characters of the
alphabet, followed by at most two padding characters, a multiple of four
characters in all. -/
def validStdBase64 (cs : List Char) : Prop :=
  ∃ body pad : List Char, cs = body ++ pad ∧ (∀ c ∈ body, c ∈ Demo.alphabet) ∧
    (pad = [] ∨ pad = ['='] ∨ pad = ['=', '=']) ∧ cs.length % 4 = 0

/-- The imported functions of `Demo.lib` with the base64 decoder of Go. -/
def Demo.goLib : Lib Demo.Vals Demo.Options :=
  { Demo.lib with base64Decode := stdDecodeString }

/-! ## Lemmas on records -/

theorem Record.get?_of_len_eq_zero (inp : Record) (key : String) (h : inp.len = 0) :
    inp.get? key = none := by
  cases inp with
  | none => rfl
  | some es =>
    cases es with
    | nil => rfl
    | cons e rest => simp [Record.len] at h

theorem Record.len_ne_zero_of_get? (inp : Record) (key : String) (av : AttributeValue)
    (h : inp.get? key = some av) : inp.len ≠ 0 := by
  intro h0
  rw [Record.get?_of_len_eq_zero inp key h0] at h
  cases h

theorem Entries.set_pair (a b : String) (x y : AttributeValue) (h : a ≠ b) :
    (Entries.set [] a x).set b y = [(a, x), (b, y)] := by
  simp [Entries.set, h]

theorem Entries.set_triple (a b c : String) (x y z : AttributeValue) (hac : a ≠ c) (hbc : b ≠ c) :
    Entries.set [(a, x), (b, y)] c z = [(a, x), (b, y), (c, z)] := by
  simp [Entries.set, hac, hbc]

theorem Entries.get?_pair_other (a b c : String) (x y : AttributeValue) (hac : a ≠ c)
    (hbc : b ≠ c) : Entries.get? [(a, x), (b, y)] c = none := by
  simp [Entries.get?, hac, hbc]

/-! ## Lemmas on the codec chain -/

theorem EncodeMulti.loop_ok_of_head {Vals : Type} (name : String) (value : Vals)
    (c0 : Codec Vals) (rest : List (Codec Vals)) (errors : List LibError) (payload : String)
    (h : c0.Encode name value = .ok payload) :
    EncodeMulti.loop name value (c0 :: rest) errors = .ok payload := by
  simp [EncodeMulti.loop, h]

theorem EncodeMulti_of_head {Vals : Type} (name : String) (value : Vals)
    (c0 : Codec Vals) (rest : List (Codec Vals)) (payload : String)
    (h : c0.Encode name value = .ok payload) :
    EncodeMulti name value (c0 :: rest) = .ok payload := by
  simp [EncodeMulti, EncodeMulti.loop, h]

/-- Whether the loop of `EncodeMulti` finds a payload, and which one, does not
depend on the errors collected so far. -/
theorem EncodeMulti.loop_ok_iff {Vals : Type} (name : String) (value : Vals)
    (codecs : List (Codec Vals)) (e1 e2 : List LibError) (payload : String) :
    EncodeMulti.loop name value codecs e1 = .ok payload ↔
      EncodeMulti.loop name value codecs e2 = .ok payload := by
  induction codecs generalizing e1 e2 with
  | nil => simp [EncodeMulti.loop]
  | cons c rest ih =>
    cases hc : c.Encode name value with
    | ok p => simp [EncodeMulti.loop, hc]
    | error err =>
      simp only [EncodeMulti.loop, hc]
      exact ih _ _

theorem DecodeMulti_of_head {Vals : Type} (name value : String) (dst v : Vals)
    (c0 : Codec Vals) (rest : List (Codec Vals))
    (h : c0.Decode name value dst = (none, v)) :
    DecodeMulti name value dst (c0 :: rest) = (none, v) := by
  simp [DecodeMulti, DecodeMulti.loop, h]

/-- When every codec of the chain refuses the value, whatever it finds in `dst`,
the loop of `DecodeMulti` ends with an error. -/
theorem DecodeMulti.loop_fails {Vals : Type} (name value : String)
    (codecs : List (Codec Vals)) (dst : Vals) (errors : List LibError)
    (h : ∀ c ∈ codecs, ∀ d : Vals, (c.Decode name value d).1 ≠ none) :
    (DecodeMulti.loop name value codecs dst errors).1 ≠ none := by
  induction codecs generalizing dst errors with
  | nil => simp [DecodeMulti.loop]
  | cons c rest ih =>
    have hc := h c (List.mem_cons_self c rest) dst
    rcases hd : c.Decode name value dst with ⟨e, d1⟩
    rw [hd] at hc
    cases e with
    | none => exact absurd rfl hc
    | some err =>
      simp only [DecodeMulti.loop, hd]
      exact ih d1 _ (fun c1 hc1 d => h c1 (List.mem_cons_of_mem c hc1) d)

theorem DecodeMulti_fails {Vals : Type} (name value : String)
    (codecs : List (Codec Vals)) (dst : Vals)
    (h : ∀ c ∈ codecs, ∀ d : Vals, (c.Decode name value d).1 ≠ none) :
    (DecodeMulti name value dst codecs).1 ≠ none := by
  unfold DecodeMulti
  split
  · simp
  · exact DecodeMulti.loop_fails name value codecs dst [] h

/-! ## `marshal` and `unmarshal` step by step -/

/-- The record `marshal` builds from an identity, a payload and the options. -/
theorem codec_marshal_of_payload {Vals Opts : Type} (F : FieldNames)
    (L : Lib Vals Opts) (codecs : List (Codec Vals)) (name : String)
    (S : Session Vals Opts) (payload : String)
    (henc : EncodeMulti name S.Values codecs = .ok payload) :
    codecSerializer.marshal F L codecs name S =
      match S.Options with
      | none => (some [(F.idField, .S S.ID), (F.valuesField, .S payload)], none)
      | some o =>
        match L.marshalOptions o with
        | .error err => (none, some (.ext err))
        | .ok options =>
          (some [(F.idField, .S S.ID), (F.valuesField, .S payload), (F.optionsField, options)],
            none) := by
  unfold codecSerializer.marshal
  simp only [henc, Entries.set_pair _ _ _ _ F.id_ne_values,
    Entries.set_triple _ _ _ _ _ _ F.id_ne_options F.values_ne_options]

theorem gob_marshal_of_payload {Vals Opts : Type} (F : FieldNames)
    (L : Lib Vals Opts) (name : String) (S : Session Vals Opts) (buf : List UInt8)
    (henc : L.gobEncode S.Values = .ok buf) :
    gobSerializer.marshal F L name S =
      match S.Options with
      | none => (some [(F.idField, .S S.ID), (F.valuesField, .S (L.base64Encode buf))], none)
      | some o =>
        match L.marshalOptions o with
        | .error err => (none, some (.ext err))
        | .ok options =>
          (some [(F.idField, .S S.ID), (F.valuesField, .S (L.base64Encode buf)),
            (F.optionsField, options)], none) := by
  unfold gobSerializer.marshal
  simp only [henc, Entries.set_pair _ _ _ _ F.id_ne_values,
    Entries.set_triple _ _ _ _ _ _ F.id_ne_options F.values_ne_options]

/-- What `codecSerializer.unmarshal` does once the identity and the values field
are string attributes. -/
theorem codec_unmarshal_of_strings {Vals Opts : Type} (F : FieldNames)
    (L : Lib Vals Opts) (codecs : List (Codec Vals)) (name : String) (inp : Record)
    (T : Session Vals Opts) (id pl : String)
    (hid : inp.get? F.idField = some (.S id)) (hpl : inp.get? F.valuesField = some (.S pl)) :
    codecSerializer.unmarshal F L codecs name inp T =
      match DecodeMulti name pl L.emptyValues codecs with
      | (some _, _) => (some .errDecodeFailed, T)
      | (none, values) =>
        match inp.get? F.optionsField with
        | none => (none, { T with IsNew := false, ID := id, Values := values })
        | some av2 =>
          match L.unmarshalOptions av2 with
          | .error err => (some (.ext err), { T with IsNew := false, ID := id, Values := values })
          | .ok options =>
            (none, { ID := id, Values := values, Options := some options, IsNew := false }) := by
  unfold codecSerializer.unmarshal
  rw [if_neg (Record.len_ne_zero_of_get? inp _ _ hid)]
  simp only [hid, hpl, unmarshalString]

/-- What `gobSerializer.unmarshal` does once the identity and the values field
are string attributes. -/
theorem gob_unmarshal_of_strings {Vals Opts : Type} (F : FieldNames)
    (L : Lib Vals Opts) (name : String) (inp : Record)
    (T : Session Vals Opts) (id pl : String)
    (hid : inp.get? F.idField = some (.S id)) (hpl : inp.get? F.valuesField = some (.S pl)) :
    gobSerializer.unmarshal F L name inp T =
      match L.base64Decode pl with
      | .error _ => (some .errDecodeFailed, T)
      | .ok data =>
        match L.gobDecode data with
        | .error _ => (some .errDecodeFailed, T)
        | .ok values =>
          match inp.get? F.optionsField with
          | none => (none, { T with IsNew := false, ID := id, Values := values })
          | some av2 =>
            match L.unmarshalOptions av2 with
            | .error err =>
              (some (.ext err), { T with IsNew := false, ID := id, Values := values })
            | .ok options =>
              (none, { ID := id, Values := values, Options := some options, IsNew := false }) := by
  unfold gobSerializer.unmarshal
  rw [if_neg (Record.len_ne_zero_of_get? inp _ _ hid)]
  simp only [hid, hpl, unmarshalString]

/-- Reading the three fields of a record that `marshal` built. -/
theorem get?_marshalled (F : FieldNames) (id payload : String) (opts : Option AttributeValue) :
    Record.get? (some (recordOf F id payload opts)) F.idField = some (.S id) ∧
    Record.get? (some (recordOf F id payload opts)) F.valuesField = some (.S payload) ∧
    Record.get? (some (recordOf F id payload opts)) F.optionsField = opts := by
  cases opts <;>
    simp [recordOf, Record.get?, Entries.get?, F.id_ne_values, F.id_ne_options,
      F.values_ne_options]

/-- A successful `codecSerializer.marshal`: the chain gave a payload, the
options (if any) were transcoded, and the record holds exactly these. -/
theorem codec_marshal_success {Vals Opts : Type} (F : FieldNames) (L : Lib Vals Opts)
    (codecs : List (Codec Vals)) (name : String) (S : Session Vals Opts) (R : Record)
    (hm : codecSerializer.marshal F L codecs name S = (R, none)) :
    ∃ payload opts, EncodeMulti name S.Values codecs = .ok payload ∧
      R = some (recordOf F S.ID payload opts) ∧
      ((S.Options = none ∧ opts = none) ∨
        ∃ o av, S.Options = some o ∧ L.marshalOptions o = .ok av ∧ opts = some av) := by
  cases henc : EncodeMulti name S.Values codecs with
  | error e => simp [codecSerializer.marshal, henc] at hm
  | ok payload =>
    rw [codec_marshal_of_payload F L codecs name S payload henc] at hm
    cases hO : S.Options with
    | none =>
      simp only [hO, Prod.mk.injEq, and_true] at hm
      exact ⟨payload, none, rfl, hm.symm, Or.inl ⟨rfl, rfl⟩⟩
    | some o =>
      cases hmo : L.marshalOptions o with
      | error e => simp [hO, hmo] at hm
      | ok av =>
        simp only [hO, hmo, Prod.mk.injEq, and_true] at hm
        exact ⟨payload, some av, rfl, hm.symm, Or.inr ⟨o, av, rfl, hmo, rfl⟩⟩

/-- A successful `gobSerializer.marshal`: gob gave a buffer, the options (if
any) were transcoded, and the record holds exactly these. -/
theorem gob_marshal_success {Vals Opts : Type} (F : FieldNames) (L : Lib Vals Opts)
    (name : String) (S : Session Vals Opts) (R : Record)
    (hm : gobSerializer.marshal F L name S = (R, none)) :
    ∃ buf opts, L.gobEncode S.Values = .ok buf ∧
      R = some (recordOf F S.ID (L.base64Encode buf) opts) ∧
      ((S.Options = none ∧ opts = none) ∨
        ∃ o av, S.Options = some o ∧ L.marshalOptions o = .ok av ∧ opts = some av) := by
  cases henc : L.gobEncode S.Values with
  | error e => simp [gobSerializer.marshal, henc] at hm
  | ok buf =>
    rw [gob_marshal_of_payload F L name S buf henc] at hm
    cases hO : S.Options with
    | none =>
      simp only [hO, Prod.mk.injEq, and_true] at hm
      exact ⟨buf, none, rfl, hm.symm, Or.inl ⟨rfl, rfl⟩⟩
    | some o =>
      cases hmo : L.marshalOptions o with
      | error e => simp [hO, hmo] at hm
      | ok av =>
        simp only [hO, hmo, Prod.mk.injEq, and_true] at hm
        exact ⟨buf, some av, rfl, hm.symm, Or.inr ⟨o, av, rfl, hmo, rfl⟩⟩

/-- When the chain refuses the payload, `codecSerializer.unmarshal` of a record
with string identity and values returns `errDecodeFailed` and leaves the session. -/
theorem codec_unmarshal_of_chain_failure {Vals Opts : Type} (F : FieldNames)
    (L : Lib Vals Opts) (codecs : List (Codec Vals)) (name : String) (inp : Record)
    (T : Session Vals Opts) (id pl : String)
    (hid : inp.get? F.idField = some (.S id)) (hpl : inp.get? F.valuesField = some (.S pl))
    (hfail : (DecodeMulti name pl L.emptyValues codecs).1 ≠ none) :
    codecSerializer.unmarshal F L codecs name inp T = (some Error.errDecodeFailed, T) := by
  rw [codec_unmarshal_of_strings F L codecs name inp T id pl hid hpl]
  rcases hd : DecodeMulti name pl L.emptyValues codecs with ⟨e, d⟩
  rw [hd] at hfail
  cases e with
  | none => exact absurd rfl hfail
  | some err => rfl

/-- When the chain decodes the payload to `v` and the options attribute (if
any) is readable, `codecSerializer.unmarshal` of a record that `marshal` built
succeeds and stores the identity, `v` and `IsNew = false`. -/
theorem codec_unmarshal_of_chain_success {Vals Opts : Type} (F : FieldNames)
    (L : Lib Vals Opts) (codecs : List (Codec Vals)) (name : String)
    (T : Session Vals Opts) (id pl : String) (opts : Option AttributeValue) (v : Vals)
    (hdec : DecodeMulti name pl L.emptyValues codecs = (none, v))
    (hopts : ∀ av, opts = some av → ∃ o1, L.unmarshalOptions av = .ok o1) :
    ∃ T1, codecSerializer.unmarshal F L codecs name (some (recordOf F id pl opts)) T = (none, T1) ∧
      T1.ID = id ∧ T1.Values = v ∧ T1.IsNew = false := by
  obtain ⟨h1, h2, h3⟩ := get?_marshalled F id pl opts
  rw [codec_unmarshal_of_strings F L codecs name _ T id pl h1 h2, hdec]
  cases opts with
  | none =>
    simp only [h3]
    exact ⟨_, rfl, rfl, rfl, rfl⟩
  | some av =>
    obtain ⟨o1, ho1⟩ := hopts av rfl
    simp only [h3, ho1]
    exact ⟨_, rfl, rfl, rfl, rfl⟩

theorem Entries.get?_set_same (es : Entries) (key : String) (val : AttributeValue) :
    (es.set key val).get? key = some val := by
  induction es with
  | nil => simp [Entries.set, Entries.get?]
  | cons e rest ih =>
    obtain ⟨k, v⟩ := e
    by_cases h : k = key
    · simp [Entries.set, Entries.get?, h]
    · simp [Entries.set, Entries.get?, h, ih]

theorem Entries.get?_set_other (es : Entries) (key other : String) (val : AttributeValue)
    (hne : key ≠ other) : (es.set key val).get? other = es.get? other := by
  induction es with
  | nil => simp [Entries.set, Entries.get?, hne]
  | cons e rest ih =>
    obtain ⟨k, v⟩ := e
    by_cases h : k = key
    · subst h
      simp [Entries.set, Entries.get?, hne]
    · by_cases h2 : k = other
      · subst h2
        simp [Entries.set, Entries.get?, h]
      · simp [Entries.set, Entries.get?, h, h2, ih]

/-- When base64 and gob decode the payload to `v` and the options attribute (if
any) is readable, `gobSerializer.unmarshal` of a record that `marshal` built
succeeds and stores the identity, `v` and `IsNew = false`. -/
theorem gob_unmarshal_of_payload_success {Vals Opts : Type} (F : FieldNames)
    (L : Lib Vals Opts) (name : String) (T : Session Vals Opts) (id pl : String)
    (opts : Option AttributeValue) (data : List UInt8) (v : Vals)
    (hb64 : L.base64Decode pl = .ok data) (hgob : L.gobDecode data = .ok v)
    (hopts : ∀ av, opts = some av → ∃ o1, L.unmarshalOptions av = .ok o1) :
    ∃ T1, gobSerializer.unmarshal F L name (some (recordOf F id pl opts)) T = (none, T1) ∧
      T1.ID = id ∧ T1.Values = v ∧ T1.IsNew = false := by
  obtain ⟨h1, h2, h3⟩ := get?_marshalled F id pl opts
  rw [gob_unmarshal_of_strings F L name _ T id pl h1 h2]
  cases opts with
  | none =>
    simp only [hb64, hgob, h3]
    exact ⟨_, rfl, rfl, rfl, rfl⟩
  | some av =>
    obtain ⟨o1, ho1⟩ := hopts av rfl
    simp only [hb64, hgob, h3, ho1]
    exact ⟨_, rfl, rfl, rfl, rfl⟩

/-- The options attribute of a marshalled record is readable when the
transcoder reads back what it wrote. -/
theorem opts_readable {Vals Opts : Type} (L : Lib Vals Opts) (S : Session Vals Opts)
    (opts : Option AttributeValue)
    (hO : (S.Options = none ∧ opts = none) ∨
      ∃ o av, S.Options = some o ∧ L.marshalOptions o = .ok av ∧ opts = some av)
    (hopts : ∀ o av, S.Options = some o → L.marshalOptions o = .ok av →
      ∃ o1, L.unmarshalOptions av = .ok o1) :
    ∀ av, opts = some av → ∃ o1, L.unmarshalOptions av = .ok o1 := by
  intro av hav
  rcases hO with ⟨_, h⟩ | ⟨o, av1, hSo, hmo, h⟩
  · rw [h] at hav
    cases hav
  · rw [h] at hav
    cases hav
    exact hopts o _ hSo hmo

/-! ## The keyed codec decodes what it encodes -/

namespace Demo

theorem parse_word_none (w cs acc : List Char) (hw : w.all plainChar = true) :
    parse (w ++ cs) none acc = parse cs none (w.reverse ++ acc) := by
  induction w generalizing acc with
  | nil => simp
  | cons c w ih =>
    simp only [List.all_cons, Bool.and_eq_true] at hw
    obtain ⟨hc, hw⟩ := hw
    simp only [plainChar, Bool.and_eq_true, bne_iff_ne, ne_eq] at hc
    simp only [List.cons_append, parse, hc.1, hc.2, if_false]
    have h1 := ih (c :: acc) hw
    simp only [List.append_eq] at h1 ⊢
    rw [h1]
    simp

theorem parse_word_some (w cs k acc : List Char) (hw : w.all plainChar = true) :
    parse (w ++ cs) (some k) acc = parse cs (some k) (w.reverse ++ acc) := by
  induction w generalizing acc with
  | nil => simp
  | cons c w ih =>
    simp only [List.all_cons, Bool.and_eq_true] at hw
    obtain ⟨hc, hw⟩ := hw
    simp only [plainChar, Bool.and_eq_true, bne_iff_ne, ne_eq] at hc
    simp only [List.cons_append, parse, hc.1, hc.2, if_false]
    have h1 := ih (c :: acc) hw
    simp only [List.append_eq] at h1 ⊢
    rw [h1]
    simp

theorem parse_render (v : Vals) (hv : encodable v = true) :
    parse (render v) none [] = some v := by
  induction v with
  | nil => rfl
  | cons e rest ih =>
    obtain ⟨k, x⟩ := e
    simp only [encodable, List.all_cons, Bool.and_eq_true] at hv
    obtain ⟨⟨hk, hx⟩, hrest⟩ := hv
    have ih1 := ih (by simpa [encodable] using hrest)
    simp only [render]
    rw [parse_word_none _ _ _ hk]
    simp only [parse, if_true, List.append_nil, List.reverse_reverse]
    rw [parse_word_some _ _ _ _ hx]
    simp [parse, ih1]

theorem isPrefixOf_append_self (h b : List Char) : h.isPrefixOf (h ++ b) = true := by
  induction h with
  | nil => simp [List.isPrefixOf]
  | cons c h ih => simp [List.isPrefixOf, ih]

/-- The keyed codec decodes under `name` what it encoded under `name`. -/
theorem keyedCodec_roundtrip (key : String) (maxLength : Nat) (name : String) (v dst : Vals)
    (payload : String) (h : (keyedCodec key maxLength).Encode name v = .ok payload) :
    (keyedCodec key maxLength).Decode name payload dst = (none, v) := by
  simp only [keyedCodec] at h ⊢
  by_cases hv : encodable v = true
  · rw [if_pos hv] at h
    split at h
    · cases h
    · rename_i hlen
      cases h
      simp only []
      rw [if_neg hlen, if_pos (isPrefixOf_append_self _ _), List.drop_left, parse_render v hv]
  · rw [if_neg hv] at h
    cases h

end Demo

/-! ## Empty and malformed records -/

/-- C3: for both serializers, for every name and session, `unmarshal` of a record
without fields (`len(in) == 0`, the nil map included) returns `errNotFound`, which
is neither `errMalformedSession` nor `errDecodeFailed`, and leaves the session as
it was. -/
theorem unmarshal_empty_record {Vals Opts : Type} (F : FieldNames) (L : Lib Vals Opts)
    (codecs : List (Codec Vals)) (name : String) (inp : Record) (session : Session Vals Opts)
    (hempty : inp.len = 0) :
    codecSerializer.unmarshal F L codecs name inp session = (some Error.errNotFound, session) ∧
    gobSerializer.unmarshal F L name inp session = (some Error.errNotFound, session) ∧
    Error.errNotFound ≠ Error.errMalformedSession ∧
    Error.errNotFound ≠ Error.errDecodeFailed := by
  refine ⟨?_, ?_, ?_, ?_⟩
  · simp [codecSerializer.unmarshal, hempty]
  · simp [gobSerializer.unmarshal, hempty]
  · intro h; cases h
  · intro h; cases h

/-- The empty map and the nil map, decoded with a one-codec chain and with gob. -/
theorem unmarshal_empty_record_witness :
    (codecSerializer.unmarshal Demo.fields Demo.lib [Demo.keyedCodec "k1" 0] "app" (some [])
        Demo.blank = (some Error.errNotFound, Demo.blank) ∧
      gobSerializer.unmarshal Demo.fields Demo.lib "app" (some []) Demo.blank
        = (some Error.errNotFound, Demo.blank) ∧
      Error.errNotFound ≠ Error.errMalformedSession ∧
      Error.errNotFound ≠ Error.errDecodeFailed) ∧
    (codecSerializer.unmarshal Demo.fields Demo.lib [Demo.keyedCodec "k1" 0] "app" none
        Demo.blank = (some Error.errNotFound, Demo.blank) ∧
      gobSerializer.unmarshal Demo.fields Demo.lib "app" none Demo.blank
        = (some Error.errNotFound, Demo.blank) ∧
      Error.errNotFound ≠ Error.errMalformedSession ∧
      Error.errNotFound ≠ Error.errDecodeFailed) :=
  ⟨unmarshal_empty_record Demo.fields Demo.lib [Demo.keyedCodec "k1" 0] "app" (some [])
      Demo.blank rfl,
    unmarshal_empty_record Demo.fields Demo.lib [Demo.keyedCodec "k1" 0] "app" none
      Demo.blank rfl⟩

/-- C4: for both serializers, for every name and session, `unmarshal` of a
record that has at least one field but no identity field, or no values field,
returns `errMalformedSession` (so it never succeeds) and leaves the session as
it was, whatever the other fields of the record hold. -/
theorem unmarshal_missing_field {Vals Opts : Type} (F : FieldNames) (L : Lib Vals Opts)
    (codecs : List (Codec Vals)) (name : String) (inp : Record) (session : Session Vals Opts)
    (hlen : inp.len ≠ 0)
    (hmiss : inp.get? F.idField = none ∨ inp.get? F.valuesField = none) :
    codecSerializer.unmarshal F L codecs name inp session
      = (some Error.errMalformedSession, session) ∧
    gobSerializer.unmarshal F L name inp session
      = (some Error.errMalformedSession, session) := by
  constructor
  · unfold codecSerializer.unmarshal
    rw [if_neg hlen]
    rcases hmiss with h | h
    · rw [h]
    · rw [h]
      split
      · rfl
      · split <;> rfl
  · unfold gobSerializer.unmarshal
    rw [if_neg hlen]
    rcases hmiss with h | h
    · rw [h]
    · rw [h]
      split
      · rfl
      · split <;> rfl

/-- A record holding only the options field, and a record holding only a valid
identity field. -/
theorem unmarshal_missing_field_witness :
    (codecSerializer.unmarshal Demo.fields Demo.lib [Demo.keyedCodec "k1" 0] "app"
        (some [("options", .M [("Path", .S "/"), ("Secure", .BOOL true)])]) Demo.blank
        = (some Error.errMalformedSession, Demo.blank) ∧
      gobSerializer.unmarshal Demo.fields Demo.lib "app"
        (some [("options", .M [("Path", .S "/"), ("Secure", .BOOL true)])]) Demo.blank
        = (some Error.errMalformedSession, Demo.blank)) ∧
    (codecSerializer.unmarshal Demo.fields Demo.lib [Demo.keyedCodec "k1" 0] "app"
        (some [("id", .S "s-1")]) Demo.blank
        = (some Error.errMalformedSession, Demo.blank) ∧
      gobSerializer.unmarshal Demo.fields Demo.lib "app"
        (some [("id", .S "s-1")]) Demo.blank
        = (some Error.errMalformedSession, Demo.blank)) :=
  ⟨unmarshal_missing_field Demo.fields Demo.lib [Demo.keyedCodec "k1" 0] "app"
      (some [("options", .M [("Path", .S "/"), ("Secure", .BOOL true)])]) Demo.blank
      (by decide) (Or.inl rfl),
    unmarshal_missing_field Demo.fields Demo.lib [Demo.keyedCodec "k1" 0] "app"
      (some [("id", .S "s-1")]) Demo.blank (by decide) (Or.inr rfl)⟩

/-! ## Round trip -/

/-- C1, as amended: for both serializers, every name, every session `S` and
every target session `T`, if `marshal name S` returns the record `R` then
`unmarshal name R T` returns no error and leaves `T.ID = S.ID`, `T.Values =
S.Values` and `T.IsNew = false`; for `codecSerializer` provided the first codec
of the chain accepts `S.Values` under `name` and decodes its payload under
`name` to `S.Values`; for `gobSerializer` provided base64 and gob decode what
they encoded; and in both cases provided the options transcoder reads back the
attribute it wrote. -/
theorem marshal_unmarshal_roundtrip {Vals Opts : Type} (F : FieldNames) (L : Lib Vals Opts)
    (name : String) (S T : Session Vals Opts)
    (hopts : ∀ o av, S.Options = some o → L.marshalOptions o = .ok av →
      ∃ o1, L.unmarshalOptions av = .ok o1) :
    (∀ (c0 : Codec Vals) (rest : List (Codec Vals)) (payload : String) (R : Record),
      c0.Encode name S.Values = .ok payload →
      c0.Decode name payload L.emptyValues = (none, S.Values) →
      codecSerializer.marshal F L (c0 :: rest) name S = (R, none) →
      ∃ T1, codecSerializer.unmarshal F L (c0 :: rest) name R T = (none, T1) ∧
        T1.ID = S.ID ∧ T1.Values = S.Values ∧ T1.IsNew = false) ∧
    (∀ (buf : List UInt8) (R : Record),
      L.gobEncode S.Values = .ok buf →
      L.base64Decode (L.base64Encode buf) = .ok buf →
      L.gobDecode buf = .ok S.Values →
      gobSerializer.marshal F L name S = (R, none) →
      ∃ T1, gobSerializer.unmarshal F L name R T = (none, T1) ∧
        T1.ID = S.ID ∧ T1.Values = S.Values ∧ T1.IsNew = false) := by
  constructor
  · intro c0 rest payload R henc hdec hm
    obtain ⟨p, opts, hE, hR, hO⟩ := codec_marshal_success F L _ name S R hm
    rw [EncodeMulti_of_head name S.Values c0 rest payload henc] at hE
    cases hE
    subst hR
    exact codec_unmarshal_of_chain_success F L _ name T S.ID payload opts S.Values
      (DecodeMulti_of_head name payload _ _ c0 rest hdec) (opts_readable L S opts hO hopts)
  · intro buf R henc hb64 hgob hm
    obtain ⟨b, opts, hE, hR, hO⟩ := gob_marshal_success F L name S R hm
    rw [henc] at hE
    cases hE
    subst hR
    exact gob_unmarshal_of_payload_success F L name T S.ID _ opts buf S.Values hb64 hgob
      (opts_readable L S opts hO hopts)

/-- The session `bob`, which has options, goes through a two-codec chain and
through gob into a session that was in use. -/
theorem marshal_unmarshal_roundtrip_witness :
    (∃ T1, codecSerializer.unmarshal Demo.fields Demo.lib
        [Demo.keyedCodec "new" 0, Demo.keyedCodec "old" 0] "app"
        (some [("id", .S "s-2"), ("values", .S "new|app|user=bob;"),
          ("options", .M [("Path", .S "/"), ("Secure", .BOOL true)])]) Demo.loaded = (none, T1) ∧
      T1.ID = Demo.bob.ID ∧ T1.Values = Demo.bob.Values ∧ T1.IsNew = false) ∧
    (∃ T1, gobSerializer.unmarshal Demo.fields Demo.lib "app"
        (some [("id", .S "s-2"), ("values", .S "dXNlcj1ib2I7"),
          ("options", .M [("Path", .S "/"), ("Secure", .BOOL true)])]) Demo.loaded = (none, T1) ∧
      T1.ID = Demo.bob.ID ∧ T1.Values = Demo.bob.Values ∧ T1.IsNew = false) :=
  have hopts : ∀ o av, Demo.bob.Options = some o → Demo.lib.marshalOptions o = .ok av →
      ∃ o1, Demo.lib.unmarshalOptions av = .ok o1 := by
    intro o av ho hav
    cases ho
    cases hav
    exact ⟨_, rfl⟩
  ⟨(marshal_unmarshal_roundtrip Demo.fields Demo.lib "app" Demo.bob Demo.loaded hopts).1
      (Demo.keyedCodec "new" 0) [Demo.keyedCodec "old" 0] "new|app|user=bob;" _ rfl rfl rfl,
    (marshal_unmarshal_roundtrip Demo.fields Demo.lib "app" Demo.bob Demo.loaded hopts).2
      [117, 115, 101, 114, 61, 98, 111, 98, 59] _ rfl rfl rfl rfl⟩

/-- C1 fails as stated: the first codec of the chain decodes under every name
what it encoded under that name, the chain accepts the values of `carol` and
`marshal` returns a record, and yet `unmarshal` of that record under the same
name returns `errDecodeFailed`. The first codec refuses the values as too long,
so the payload comes from the second codec, which does not decode it. -/
theorem marshal_unmarshal_roundtrip_counterexample :
    (∀ (name : String) (v : Demo.Vals) (payload : String),
      (Demo.keyedCodec "new" 24).Encode name v = .ok payload →
      (Demo.keyedCodec "new" 24).Decode name payload Demo.lib.emptyValues = (none, v)) ∧
    EncodeMulti "app" Demo.carol.Values [Demo.keyedCodec "new" 24, Demo.minAgeCodec "old"]
      = .ok "old|app|user=carol;theme=dark;" ∧
    codecSerializer.marshal Demo.fields Demo.lib
      [Demo.keyedCodec "new" 24, Demo.minAgeCodec "old"] "app" Demo.carol
      = (some [("id", .S "s-3"), ("values", .S "old|app|user=carol;theme=dark;")], none) ∧
    codecSerializer.unmarshal Demo.fields Demo.lib
      [Demo.keyedCodec "new" 24, Demo.minAgeCodec "old"] "app"
      (some [("id", .S "s-3"), ("values", .S "old|app|user=carol;theme=dark;")]) Demo.blank
      = (some Error.errDecodeFailed, Demo.blank) :=
  ⟨fun name v payload h => Demo.keyedCodec_roundtrip "new" 24 name v _ payload h,
    rfl, rfl, rfl⟩

/-! ## Errors and the state of the session -/

/-- C2, on a record whose identity and payload decode and whose options field
is a string attribute: both serializers return the error of the options
transcoder, and the session, which held the identity `s-0`, the value `cart`
and `IsNew = true` before the call, now holds the identity and the values of
the record and `IsNew = false`. -/
theorem unmarshal_options_error_overwrites_session :
    codecSerializer.unmarshal Demo.fields Demo.lib [Demo.keyedCodec "k1" 0] "app"
      (some [("id", .S "s-1"), ("values", .S "k1|app|user=alice;"), ("options", .S "oops")])
      Demo.loaded
      = (some (.ext (.msg "unmarshal failed, cannot unmarshal to Options")),
          { ID := "s-1", Values := [("user", "alice")], Options := none, IsNew := false }) ∧
    gobSerializer.unmarshal Demo.fields Demo.lib "app"
      (some [("id", .S "s-1"), ("values", .S "dXNlcj1hbGljZTs="), ("options", .S "oops")])
      Demo.loaded
      = (some (.ext (.msg "unmarshal failed, cannot unmarshal to Options")),
          { ID := "s-1", Values := [("user", "alice")], Options := none, IsNew := false }) ∧
    Demo.loaded.ID = "s-0" ∧ Demo.loaded.Values = [("cart", "3")] ∧ Demo.loaded.IsNew = true :=
  ⟨rfl, rfl, rfl, rfl, rfl⟩

/-! ## The codec chain on encode -/

/-- C5, as amended: for every name, session and chain `c0 :: rest`, when the
first codec accepts `session.Values` the result of `marshal` is the one of the
chain `[c0]` and the values field holds the output of `c0`, so the codecs after
the first contribute nothing; when the first codec refuses and other codecs
follow, `marshal` goes on with them and its result is the one of the chain
`rest`. -/
theorem codec_marshal_first_accepting_codec {Vals Opts : Type} (F : FieldNames)
    (L : Lib Vals Opts) (name : String) (S : Session Vals Opts) (c0 : Codec Vals)
    (rest : List (Codec Vals)) :
    (∀ payload, c0.Encode name S.Values = .ok payload →
      codecSerializer.marshal F L (c0 :: rest) name S = codecSerializer.marshal F L [c0] name S ∧
      ∀ R, codecSerializer.marshal F L (c0 :: rest) name S = (R, none) →
        R.get? F.valuesField = some (.S payload)) ∧
    (∀ err, c0.Encode name S.Values = .error err → rest ≠ [] →
      codecSerializer.marshal F L (c0 :: rest) name S = codecSerializer.marshal F L rest name S) := by
  constructor
  · intro payload henc
    have h1 := codec_marshal_of_payload F L (c0 :: rest) name S payload
      (EncodeMulti_of_head name S.Values c0 rest payload henc)
    have h2 := codec_marshal_of_payload F L [c0] name S payload
      (EncodeMulti_of_head name S.Values c0 [] payload henc)
    refine ⟨h1.trans h2.symm, ?_⟩
    intro R hm
    obtain ⟨p, opts, hE, hR, _⟩ := codec_marshal_success F L _ name S R hm
    rw [EncodeMulti_of_head name S.Values c0 rest payload henc] at hE
    cases hE
    subst hR
    exact (get?_marshalled F S.ID payload opts).2.1
  · intro err henc hrest
    have hlen : ¬ rest.length = 0 := by
      intro h
      exact hrest (List.length_eq_zero.mp h)
    unfold codecSerializer.marshal
    have hE : EncodeMulti name S.Values (c0 :: rest)
        = EncodeMulti.loop name S.Values rest ([] ++ [err]) := by
      simp [EncodeMulti, EncodeMulti.loop, henc]
    have hR : EncodeMulti name S.Values rest = EncodeMulti.loop name S.Values rest [] := by
      simp [EncodeMulti, hlen]
    rw [hE, hR]
    cases h1 : EncodeMulti.loop name S.Values rest ([] ++ [err]) with
    | ok p =>
      rw [(EncodeMulti.loop_ok_iff name S.Values rest _ [] p).mp h1]
    | error e1 =>
      cases h2 : EncodeMulti.loop name S.Values rest [] with
      | ok p =>
        rw [(EncodeMulti.loop_ok_iff name S.Values rest [] ([] ++ [err]) p).mp h2] at h1
        cases h1
      | error e2 => rfl

/-- A chain whose first codec accepts the values of `alice`, and a chain whose
first codec has no hash key. -/
theorem codec_marshal_first_accepting_codec_witness :
    (codecSerializer.marshal Demo.fields Demo.lib
        [Demo.keyedCodec "new" 24, Demo.keyedCodec "old" 0] "app" Demo.alice
        = codecSerializer.marshal Demo.fields Demo.lib [Demo.keyedCodec "new" 24] "app" Demo.alice ∧
      Record.get? (some [("id", .S "s-1"), ("values", .S "new|app|user=alice;")]) "values"
        = some (.S "new|app|user=alice;")) ∧
    codecSerializer.marshal Demo.fields Demo.lib
        [Demo.unkeyedCodec, Demo.keyedCodec "old" 0] "app" Demo.alice
      = codecSerializer.marshal Demo.fields Demo.lib [Demo.keyedCodec "old" 0] "app" Demo.alice :=
  ⟨⟨((codec_marshal_first_accepting_codec Demo.fields Demo.lib "app" Demo.alice
        (Demo.keyedCodec "new" 24) [Demo.keyedCodec "old" 0]).1 "new|app|user=alice;" rfl).1,
      ((codec_marshal_first_accepting_codec Demo.fields Demo.lib "app" Demo.alice
        (Demo.keyedCodec "new" 24) [Demo.keyedCodec "old" 0]).1 "new|app|user=alice;" rfl).2
        (some [("id", .S "s-1"), ("values", .S "new|app|user=alice;")]) rfl⟩,
    (codec_marshal_first_accepting_codec Demo.fields Demo.lib "app" Demo.alice
      Demo.unkeyedCodec [Demo.keyedCodec "old" 0]).2 _ rfl (by simp)⟩

/-- C5 fails as stated: three chains with the same first codec, which refuses
the values of `carol` as too long, give three different results; the payload is
the output of the second codec, and without a second codec `marshal` fails. -/
theorem codec_marshal_first_codec_counterexample :
    codecSerializer.marshal Demo.fields Demo.lib
      [Demo.keyedCodec "new" 24, Demo.keyedCodec "old" 0] "app" Demo.carol
      = (some [("id", .S "s-3"), ("values", .S "old|app|user=carol;theme=dark;")], none) ∧
    codecSerializer.marshal Demo.fields Demo.lib
      [Demo.keyedCodec "new" 24, Demo.keyedCodec "older" 0] "app" Demo.carol
      = (some [("id", .S "s-3"), ("values", .S "older|app|user=carol;theme=dark;")], none) ∧
    codecSerializer.marshal Demo.fields Demo.lib [Demo.keyedCodec "new" 24] "app" Demo.carol
      = (none, some Error.errEncodeFailed) :=
  ⟨rfl, rfl, rfl⟩

/-! ## The codec chain on decode -/

/-- C6, as amended: for every name, session `S` and target session, if a
serializer with the chain `[old]` marshals `S` into the record `R`, then a
serializer with the chain `[new, old]` unmarshals `R` under the same name
without error, with `ID = S.ID` and `IsNew = false`, provided `old` validates
under that name the payload it produced (whatever `new` left in the
destination) and the options transcoder reads back the attribute it wrote. -/
theorem codec_rotation {Vals Opts : Type} (F : FieldNames) (L : Lib Vals Opts)
    (name : String) (S T : Session Vals Opts) (new old : Codec Vals) (R : Record)
    (hm : codecSerializer.marshal F L [old] name S = (R, none))
    (hold : ∀ payload, old.Encode name S.Values = .ok payload →
      ∀ dst, (old.Decode name payload dst).1 = none)
    (hopts : ∀ o av, S.Options = some o → L.marshalOptions o = .ok av →
      ∃ o1, L.unmarshalOptions av = .ok o1) :
    ∃ T1, codecSerializer.unmarshal F L [new, old] name R T = (none, T1) ∧
      T1.ID = S.ID ∧ T1.IsNew = false := by
  obtain ⟨payload, opts, hE, hR, hO⟩ := codec_marshal_success F L _ name S R hm
  subst hR
  have henc : old.Encode name S.Values = .ok payload := by
    cases h : old.Encode name S.Values with
    | ok p => simpa [EncodeMulti, EncodeMulti.loop, h] using hE
    | error e => simp [EncodeMulti, EncodeMulti.loop, h] at hE
  have hdec : ∃ v, DecodeMulti name payload L.emptyValues [new, old] = (none, v) := by
    rcases hn : new.Decode name payload L.emptyValues with ⟨e, d1⟩
    cases e with
    | none => exact ⟨d1, by simp [DecodeMulti, DecodeMulti.loop, hn]⟩
    | some err =>
      have h1 := hold payload henc d1
      rcases ho : old.Decode name payload d1 with ⟨e2, d2⟩
      rw [ho] at h1
      simp only at h1
      subst h1
      exact ⟨d2, by simp [DecodeMulti, DecodeMulti.loop, hn, ho]⟩
  obtain ⟨v, hv⟩ := hdec
  obtain ⟨T1, h1, h2, _, h4⟩ := codec_unmarshal_of_chain_success F L [new, old] name T S.ID
    payload opts v hv (opts_readable L S opts hO hopts)
  exact ⟨T1, h1, h2, h4⟩

/-- A record of `bob` written under the key `old` is read by the chain of the
keys `new` and `old`. -/
theorem codec_rotation_witness :
    ∃ T1, codecSerializer.unmarshal Demo.fields Demo.lib
        [Demo.keyedCodec "new" 0, Demo.keyedCodec "old" 0] "app"
        (some [("id", .S "s-2"), ("values", .S "old|app|user=bob;"),
          ("options", .M [("Path", .S "/"), ("Secure", .BOOL true)])]) Demo.blank = (none, T1) ∧
      T1.ID = Demo.bob.ID ∧ T1.IsNew = false :=
  codec_rotation Demo.fields Demo.lib "app" Demo.bob Demo.blank (Demo.keyedCodec "new" 0)
    (Demo.keyedCodec "old" 0) _ rfl
    (fun payload h dst => by
      rw [Demo.keyedCodec_roundtrip "old" 0 "app" Demo.bob.Values dst payload h])
    (fun o av ho hav => by
      cases ho
      cases hav
      exact ⟨_, rfl⟩)

/-- C6 fails as stated: the chain `[old]` marshals `alice` into a record, and
the chain `[new, old]` returns `errDecodeFailed` for that record under the same
name, because `old` has a minimum age and does not validate a fresh payload. -/
theorem codec_rotation_counterexample :
    codecSerializer.marshal Demo.fields Demo.lib [Demo.minAgeCodec "old"] "app" Demo.alice
      = (some [("id", .S "s-1"), ("values", .S "old|app|user=alice;")], none) ∧
    codecSerializer.unmarshal Demo.fields Demo.lib
      [Demo.keyedCodec "new" 0, Demo.minAgeCodec "old"] "app"
      (some [("id", .S "s-1"), ("values", .S "old|app|user=alice;")]) Demo.blank
      = (some Error.errDecodeFailed, Demo.blank) :=
  ⟨rfl, rfl⟩

/-- C7, as amended: for every session `S` and names `n1`, `n2`, if
`marshal n1 S` returns the record `R` and no codec of the chain validates under
`n2` the payload encoded under `n1`, then `unmarshal n2 R T` returns
`errDecodeFailed` and leaves `T` as it was. The serializer hands `name` to the
codecs and makes no check of its own. -/
theorem codec_context_binding {Vals Opts : Type} (F : FieldNames) (L : Lib Vals Opts)
    (codecs : List (Codec Vals)) (n1 n2 : String) (S T : Session Vals Opts) (R : Record)
    (hm : codecSerializer.marshal F L codecs n1 S = (R, none))
    (hbind : ∀ payload, EncodeMulti n1 S.Values codecs = .ok payload →
      ∀ c ∈ codecs, ∀ dst, (c.Decode n2 payload dst).1 ≠ none) :
    codecSerializer.unmarshal F L codecs n2 R T = (some Error.errDecodeFailed, T) := by
  obtain ⟨payload, opts, hE, hR, _⟩ := codec_marshal_success F L _ n1 S R hm
  subst hR
  obtain ⟨h1, h2, _⟩ := get?_marshalled F S.ID payload opts
  exact codec_unmarshal_of_chain_failure F L codecs n2 _ T S.ID payload h1 h2
    (DecodeMulti_fails n2 payload codecs _ (hbind payload hE))

/-- A record written under the name `app` by a keyed codec is refused under the
name `other`. -/
theorem codec_context_binding_witness :
    codecSerializer.unmarshal Demo.fields Demo.lib [Demo.keyedCodec "k1" 0] "other"
      (some [("id", .S "s-1"), ("values", .S "k1|app|user=alice;")]) Demo.blank
      = (some Error.errDecodeFailed, Demo.blank) :=
  codec_context_binding Demo.fields Demo.lib [Demo.keyedCodec "k1" 0] "app" "other"
    Demo.alice Demo.blank _ rfl
    (fun payload h c hc dst => by
      have h2 : EncodeMulti "app" Demo.alice.Values [Demo.keyedCodec "k1" 0]
          = .ok "k1|app|user=alice;" := rfl
      rw [h2] at h
      cases h
      rw [List.mem_singleton] at hc
      subst hc
      intro h3
      cases h3)

/-- C7 fails as stated: with a codec that does not look at `name`, the record
that `marshal` wrote under `app` is decoded under `other` without error, and
the session receives the identity and the values of that record. -/
theorem codec_context_binding_counterexample :
    codecSerializer.marshal Demo.fields Demo.lib [Demo.plainCodec] "app" Demo.alice
      = (some [("id", .S "s-1"), ("values", .S "user=alice;")], none) ∧
    "app" ≠ "other" ∧
    codecSerializer.unmarshal Demo.fields Demo.lib [Demo.plainCodec] "other"
      (some [("id", .S "s-1"), ("values", .S "user=alice;")]) Demo.blank
      = (none, { ID := "s-1", Values := [("user", "alice")], Options := none, IsNew := false }) :=
  ⟨rfl, by decide, rfl⟩

/-- C8, as amended: for every name and session `S`, if `marshal name S` returns
the record `R` and the payload of its values field is replaced by a text that
no codec of the chain validates under `name`, then `unmarshal` of the changed
record returns `errDecodeFailed` and leaves the session as it was. The
serializer makes no integrity check of its own. -/
theorem codec_tampered_payload {Vals Opts : Type} (F : FieldNames) (L : Lib Vals Opts)
    (codecs : List (Codec Vals)) (name : String) (S T : Session Vals Opts) (R : Entries)
    (changed : String)
    (hm : codecSerializer.marshal F L codecs name S = (some R, none))
    (hrej : ∀ c ∈ codecs, ∀ dst, (c.Decode name changed dst).1 ≠ none) :
    codecSerializer.unmarshal F L codecs name (some (R.set F.valuesField (.S changed))) T
      = (some Error.errDecodeFailed, T) := by
  obtain ⟨payload, opts, _, hR, _⟩ := codec_marshal_success F L _ name S _ hm
  cases hR
  obtain ⟨h1, _, _⟩ := get?_marshalled F S.ID payload opts
  have hid : Record.get? (some ((recordOf F S.ID payload opts).set F.valuesField (.S changed)))
      F.idField = some (.S S.ID) := by
    simp only [Record.get?] at h1 ⊢
    rw [Entries.get?_set_other _ _ _ _ (Ne.symm F.id_ne_values), h1]
  have hpl : Record.get? (some ((recordOf F S.ID payload opts).set F.valuesField (.S changed)))
      F.valuesField = some (.S changed) := by
    simp only [Record.get?]
    exact Entries.get?_set_same _ _ _
  exact codec_unmarshal_of_chain_failure F L codecs name _ T S.ID changed hid hpl
    (DecodeMulti_fails name changed codecs _ hrej)

/-- The payload `k1|app|user=alice;` with its fifth character changed from `a`
to `b` is refused. -/
theorem codec_tampered_payload_witness :
    oneChanged "k1|app|user=alice;" "k1|bpp|user=alice;" ∧
    codecSerializer.unmarshal Demo.fields Demo.lib [Demo.keyedCodec "k1" 0] "app"
      (some (Entries.set [("id", .S "s-1"), ("values", .S "k1|app|user=alice;")] "values"
        (.S "k1|bpp|user=alice;"))) Demo.blank
      = (some Error.errDecodeFailed, Demo.blank) :=
  ⟨⟨"k1|".data, "pp|user=alice;".data, 'a', 'b', by decide, rfl, rfl⟩,
    codec_tampered_payload Demo.fields Demo.lib [Demo.keyedCodec "k1" 0] "app" Demo.alice
      Demo.blank _ "k1|bpp|user=alice;" rfl
      (fun c hc dst => by
        rw [List.mem_singleton] at hc
        subst hc
        intro h3
        cases h3)⟩

/-- C8 fails as stated: the codec wraps its authenticated text in base64, as
`securecookie` does. Changing the one character `s` before the padding into `t`
changes only bits that the base64 decoder drops, so the changed record decodes
without error, to the same values. -/
theorem codec_tampered_payload_counterexample :
    codecSerializer.marshal Demo.fields Demo.lib [Demo.sealedCodec "k"] "app" Demo.alice
      = (some [("id", .S "s-1"), ("values", .S "a3xhcHB8dXNlcj1hbGljZTs=")], none) ∧
    oneChanged "a3xhcHB8dXNlcj1hbGljZTs=" "a3xhcHB8dXNlcj1hbGljZTt=" ∧
    codecSerializer.unmarshal Demo.fields Demo.lib [Demo.sealedCodec "k"] "app"
      (some [("id", .S "s-1"), ("values", .S "a3xhcHB8dXNlcj1hbGljZTt=")]) Demo.blank
      = (none, { ID := "s-1", Values := [("user", "alice")], Options := none, IsNew := false }) :=
  ⟨rfl, ⟨"a3xhcHB8dXNlcj1hbGljZT".data, "=".data, 's', 't', by decide, rfl, rfl⟩, rfl⟩

/-! ## Corrupt payloads of the gob serializer -/

/-- A character that has a 6-bit group is a character of the alphabet. -/
theorem Demo.mem_alphabet_of_unsextet (c : Char) (x : Nat) (h : Demo.unsextet c = some x) :
    c ∈ Demo.alphabet := by
  by_contra hc
  have hlen : Demo.alphabet.indexOf c = 64 := by
    rw [List.indexOf_eq_length.mpr hc]
    rfl
  simp [Demo.unsextet, hlen] at h

/-- What the decoder accepts is valid standard base64. -/
theorem Demo.valid_of_unbase64Chars (cs : List Char) :
    ∀ bs, Demo.unbase64Chars cs = some bs → validStdBase64 cs := by
  induction cs using Demo.unbase64Chars.induct with
  | case1 =>
    intro bs _
    exact ⟨[], [], rfl, by simp, Or.inl rfl, rfl⟩
  | case2 c0 c1 x0 x1 h1 h0 =>
    intro bs _
    refine ⟨[c0, c1], ['=', '='], rfl, ?_, Or.inr (Or.inr rfl), by simp⟩
    intro c hc
    simp only [List.mem_cons, List.mem_singleton, List.not_mem_nil, or_false] at hc
    rcases hc with rfl | rfl
    · exact Demo.mem_alphabet_of_unsextet _ _ h0
    · exact Demo.mem_alphabet_of_unsextet _ _ h1
  | case3 c0 c1 hf =>
    intro bs h
    simp only [Demo.unbase64Chars] at h
    cases h
  | case4 c0 c1 c2 hne x0 x1 x2 h2 h1 h0 =>
    intro bs _
    refine ⟨[c0, c1, c2], ['='], rfl, ?_, Or.inr (Or.inl rfl), by simp⟩
    intro c hc
    simp only [List.mem_cons, List.mem_singleton, List.not_mem_nil, or_false] at hc
    rcases hc with rfl | rfl | rfl
    · exact Demo.mem_alphabet_of_unsextet _ _ h0
    · exact Demo.mem_alphabet_of_unsextet _ _ h1
    · exact Demo.mem_alphabet_of_unsextet _ _ h2
  | case5 c0 c1 c2 hne hf =>
    intro bs h
    simp only [Demo.unbase64Chars] at h
    cases h
  | case6 c0 c1 c2 c3 rest hn1 hn2 x0 x1 x2 x3 bs1 hrest h3 h2 h1 h0 ih =>
    intro bs _
    obtain ⟨body, pad, hcs, hbody, hpad, hlen⟩ := ih bs1 hrest
    refine ⟨c0 :: c1 :: c2 :: c3 :: body, pad, by rw [hcs]; rfl, ?_, hpad, ?_⟩
    · intro c hc
      simp only [List.mem_cons] at hc
      rcases hc with rfl | rfl | rfl | rfl | hc
      · exact Demo.mem_alphabet_of_unsextet _ _ h0
      · exact Demo.mem_alphabet_of_unsextet _ _ h1
      · exact Demo.mem_alphabet_of_unsextet _ _ h2
      · exact Demo.mem_alphabet_of_unsextet _ _ h3
      · exact hbody c hc
    · simp only [List.length_cons]
      omega
  | case7 c0 c1 c2 c3 rest hn1 hn2 hf ih =>
    intro bs h
    simp only [Demo.unbase64Chars] at h
    cases h
  | case8 t h1 h2 h3 h4 =>
    intro bs h
    simp only [Demo.unbase64Chars] at h
    cases h

/-- A text holding a character that is neither in the alphabet nor the padding
character is not valid standard base64. -/
theorem not_validStdBase64_of_char (cs : List Char) (c : Char) (hc : c ∈ cs)
    (halpha : c ∉ Demo.alphabet) (hpad : c ≠ '=') : ¬ validStdBase64 cs := by
  rintro ⟨body, pad, hcs, hbody, hp, _⟩
  rw [hcs, List.mem_append] at hc
  rcases hc with hc | hc
  · exact halpha (hbody c hc)
  · rcases hp with rfl | rfl | rfl
    · simp at hc
    · simp only [List.mem_singleton] at hc
      exact hpad hc
    · simp only [List.mem_cons, List.mem_singleton, List.not_mem_nil, or_false, or_self] at hc
      exact hpad hc

/-- Go's decoder refuses a text that, without its carriage returns and line
feeds, is not valid standard base64. -/
theorem stdDecodeString_error_of_not_valid (s : String)
    (h : ¬ validStdBase64 (skipNewlines s)) : ∃ e, stdDecodeString s = .error e := by
  unfold stdDecodeString
  cases hd : Demo.unbase64Chars (skipNewlines s) with
  | none => exact ⟨_, rfl⟩
  | some data => exact absurd (Demo.valid_of_unbase64Chars _ data hd) h

/-- C9, as amended: for `gobSerializer`, for every name, session and record
whose identity and values fields are string attributes, `unmarshal` returns
`errDecodeFailed` and leaves the session as it was (a) whenever the base64
decoder refuses the values string; (b) with the decoder of Go, whenever the
values string without its carriage returns and line feeds, which that decoder
skips, is not valid standard base64; (c) in particular when it holds a character
that is neither in the alphabet, nor the padding character, nor a carriage
return or line feed; and (d) when the string is decoded but the gob decoder
refuses the decoded bytes. -/
theorem gob_unmarshal_corrupt_payload {Vals Opts : Type} (F : FieldNames) (L : Lib Vals Opts)
    (name : String) (inp : Record) (T : Session Vals Opts) (id pl : String)
    (hid : inp.get? F.idField = some (.S id)) (hpl : inp.get? F.valuesField = some (.S pl)) :
    (∀ e, L.base64Decode pl = .error e →
      gobSerializer.unmarshal F L name inp T = (some Error.errDecodeFailed, T)) ∧
    (L.base64Decode pl = stdDecodeString pl → ¬ validStdBase64 (skipNewlines pl) →
      gobSerializer.unmarshal F L name inp T = (some Error.errDecodeFailed, T)) ∧
    (L.base64Decode pl = stdDecodeString pl →
      (∃ c ∈ pl.data, c ∉ Demo.alphabet ∧ c ≠ '=' ∧ c ≠ '\r' ∧ c ≠ '\n') →
      gobSerializer.unmarshal F L name inp T = (some Error.errDecodeFailed, T)) ∧
    (∀ data e, L.base64Decode pl = .ok data → L.gobDecode data = .error e →
      gobSerializer.unmarshal F L name inp T = (some Error.errDecodeFailed, T)) := by
  have h1 : ∀ e, L.base64Decode pl = .error e →
      gobSerializer.unmarshal F L name inp T = (some Error.errDecodeFailed, T) := by
    intro e h
    rw [gob_unmarshal_of_strings F L name inp T id pl hid hpl]
    simp only [h]
  have h2 : L.base64Decode pl = stdDecodeString pl → ¬ validStdBase64 (skipNewlines pl) →
      gobSerializer.unmarshal F L name inp T = (some Error.errDecodeFailed, T) := by
    intro hstd hnv
    obtain ⟨e, he⟩ := stdDecodeString_error_of_not_valid pl hnv
    exact h1 e (hstd.trans he)
  refine ⟨h1, h2, ?_, ?_⟩
  · rintro hstd ⟨c, hc, halpha, hpad, hcr, hlf⟩
    apply h2 hstd
    apply not_validStdBase64_of_char _ c _ halpha hpad
    simp only [skipNewlines, List.mem_filter, Bool.and_eq_true, bne_iff_ne, ne_eq]
    exact ⟨hc, hcr, hlf⟩
  · intro data e hb hg
    rw [gob_unmarshal_of_strings F L name inp T id pl hid hpl]
    simp only [hb, hg]

/-- The payload of `alice` with the character `!`, which is outside the
alphabet, under the stand-in decoder and under the decoder of Go; and the base64
text of the four bytes `user`, which are not an encoded map. -/
theorem gob_unmarshal_corrupt_payload_witness :
    gobSerializer.unmarshal Demo.fields Demo.lib "app"
      (some [("id", .S "s-1"), ("values", .S "dXNl!j1hbGljZTs=")]) Demo.blank
      = (some Error.errDecodeFailed, Demo.blank) ∧
    gobSerializer.unmarshal Demo.fields Demo.goLib "app"
      (some [("id", .S "s-1"), ("values", .S "dXNl!j1hbGljZTs=")]) Demo.blank
      = (some Error.errDecodeFailed, Demo.blank) ∧
    gobSerializer.unmarshal Demo.fields Demo.goLib "app"
      (some [("id", .S "s-1"), ("values", .S "dXNlcg==")]) Demo.blank
      = (some Error.errDecodeFailed, Demo.blank) :=
  ⟨(gob_unmarshal_corrupt_payload Demo.fields Demo.lib "app"
      (some [("id", .S "s-1"), ("values", .S "dXNl!j1hbGljZTs=")]) Demo.blank "s-1"
      "dXNl!j1hbGljZTs=" rfl rfl).1 _ rfl,
    (gob_unmarshal_corrupt_payload Demo.fields Demo.goLib "app"
      (some [("id", .S "s-1"), ("values", .S "dXNl!j1hbGljZTs=")]) Demo.blank "s-1"
      "dXNl!j1hbGljZTs=" rfl rfl).2.2.1 rfl
      ⟨'!', by decide, by decide, by decide, by decide, by decide⟩,
    (gob_unmarshal_corrupt_payload Demo.fields Demo.goLib "app"
      (some [("id", .S "s-1"), ("values", .S "dXNlcg==")]) Demo.blank "s-1"
      "dXNlcg==" rfl rfl).2.2.2 [117, 115, 101, 114] _ rfl rfl⟩

/-- C9 fails as stated: the values string holds a line feed, a character outside
the alphabet, and is not valid standard base64; the decoder of Go skips the
line feed, the rest is the payload of `alice`, and `unmarshal` returns no error
and stores her identity and values. -/
theorem gob_unmarshal_corrupt_payload_counterexample :
    '\n' ∈ "dXNl\ncj1hbGljZTs=".data ∧ '\n' ∉ Demo.alphabet ∧
    ¬ validStdBase64 "dXNl\ncj1hbGljZTs=".data ∧
    gobSerializer.unmarshal Demo.fields Demo.goLib "app"
      (some [("id", .S "s-1"), ("values", .S "dXNl\ncj1hbGljZTs=")]) Demo.blank
      = (none, { ID := "s-1", Values := [("user", "alice")], Options := none, IsNew := false }) :=
  ⟨by decide, by decide,
    not_validStdBase64_of_char _ '\n' (by decide) (by decide) (by decide), rfl⟩

/-! ## The shape of the record -/

/-- C10: for both serializers, whenever `marshal` returns without error, the
payload encoder accepted the values and: when `Options` is nil the record has
exactly two fields, the identity field holding `session.ID` and the values
field holding the payload, both as string attributes, and no options field;
when `Options` is set the record has exactly these two fields and the options
field, which holds the transcoded options. -/
theorem marshal_record_shape {Vals Opts : Type} (F : FieldNames) (L : Lib Vals Opts)
    (codecs : List (Codec Vals)) (name : String) (S : Session Vals Opts) :
    (∀ R, codecSerializer.marshal F L codecs name S = (R, none) →
      ∃ payload, EncodeMulti name S.Values codecs = .ok payload ∧
        (S.Options = none →
          R = some [(F.idField, .S S.ID), (F.valuesField, .S payload)] ∧
          R.len = 2 ∧ R.get? F.optionsField = none) ∧
        (∀ o, S.Options = some o → ∃ av, L.marshalOptions o = .ok av ∧
          R = some [(F.idField, .S S.ID), (F.valuesField, .S payload), (F.optionsField, av)] ∧
          R.len = 3)) ∧
    (∀ R, gobSerializer.marshal F L name S = (R, none) →
      ∃ buf, L.gobEncode S.Values = .ok buf ∧
        (S.Options = none →
          R = some [(F.idField, .S S.ID), (F.valuesField, .S (L.base64Encode buf))] ∧
          R.len = 2 ∧ R.get? F.optionsField = none) ∧
        (∀ o, S.Options = some o → ∃ av, L.marshalOptions o = .ok av ∧
          R = some [(F.idField, .S S.ID), (F.valuesField, .S (L.base64Encode buf)),
            (F.optionsField, av)] ∧
          R.len = 3)) := by
  constructor
  · intro R hm
    obtain ⟨payload, opts, hE, hR, hO⟩ := codec_marshal_success F L _ name S R hm
    subst hR
    refine ⟨payload, hE, ?_, ?_⟩
    · intro hnone
      rcases hO with ⟨_, h⟩ | ⟨o, av, hSo, _, _⟩
      · subst h
        exact ⟨rfl, rfl, (get?_marshalled F S.ID payload none).2.2⟩
      · rw [hnone] at hSo
        cases hSo
    · intro o hsome
      rcases hO with ⟨h0, _⟩ | ⟨o1, av, hSo, hmo, h⟩
      · rw [hsome] at h0
        cases h0
      · rw [hsome] at hSo
        cases hSo
        subst h
        exact ⟨av, hmo, rfl, rfl⟩
  · intro R hm
    obtain ⟨buf, opts, hE, hR, hO⟩ := gob_marshal_success F L name S R hm
    subst hR
    refine ⟨buf, hE, ?_, ?_⟩
    · intro hnone
      rcases hO with ⟨_, h⟩ | ⟨o, av, hSo, _, _⟩
      · subst h
        exact ⟨rfl, rfl, (get?_marshalled F S.ID _ none).2.2⟩
      · rw [hnone] at hSo
        cases hSo
    · intro o hsome
      rcases hO with ⟨h0, _⟩ | ⟨o1, av, hSo, hmo, h⟩
      · rw [hsome] at h0
        cases h0
      · rw [hsome] at hSo
        cases hSo
        subst h
        exact ⟨av, hmo, rfl, rfl⟩

/-- The record of `alice`, who has no options, under a keyed codec has two
fields and no options field; the record of `bob`, who has options, under gob
has three fields, the third holding the transcoded options. -/
theorem marshal_record_shape_witness :
    (Record.len (some [("id", .S "s-1"), ("values", .S "k1|app|user=alice;")]) = 2 ∧
      Record.get? (some [("id", .S "s-1"), ("values", .S "k1|app|user=alice;")])
        Demo.fields.optionsField = none) ∧
    Record.len (some [("id", .S "s-2"), ("values", .S "dXNlcj1ib2I7"),
      ("options", .M [("Path", .S "/"), ("Secure", .BOOL true)])]) = 3 := by
  constructor
  · obtain ⟨_, _, h1, _⟩ :=
      (marshal_record_shape Demo.fields Demo.lib [Demo.keyedCodec "k1" 0] "app" Demo.alice).1
        (some [("id", .S "s-1"), ("values", .S "k1|app|user=alice;")]) rfl
    exact (h1 rfl).2
  · obtain ⟨_, _, _, h2⟩ :=
      (marshal_record_shape Demo.fields Demo.lib [Demo.keyedCodec "k1" 0] "app" Demo.bob).2
        (some [("id", .S "s-2"), ("values", .S "dXNlcj1ib2I7"),
          ("options", .M [("Path", .S "/"), ("Secure", .BOOL true)])]) rfl
    obtain ⟨_, _, _, h3⟩ := h2 _ rfl
    exact h3

/-! ## Both `unmarshal` functions in three stages -/

/-- Function `codecSerializer.unmarshal` is the head checks, then the codec
chain, then the storing of the result. -/
theorem codec_unmarshal_stages {Vals Opts : Type} (F : FieldNames) (L : Lib Vals Opts)
    (codecs : List (Codec Vals)) (name : String) (inp : Record) (T : Session Vals Opts) :
    codecSerializer.unmarshal F L codecs name inp T =
      match readFields F L inp with
      | .error e => (some e, T)
      | .ok (id, pl) =>
        match DecodeMulti name pl L.emptyValues codecs with
        | (some _, _) => (some .errDecodeFailed, T)
        | (none, values) => storeDecoded F L inp id values T := by
  unfold codecSerializer.unmarshal readFields storeDecoded
  by_cases h : inp.len = 0
  · simp [h]
  · simp only [h, if_false]
    cases inp.get? F.idField with
    | none => rfl
    | some av =>
      simp only []
      cases unmarshalString L av with
      | error e => rfl
      | ok id =>
        simp only []
        cases inp.get? F.valuesField with
        | none => rfl
        | some av1 =>
          simp only []
          cases unmarshalString L av1 with
          | error e => rfl
          | ok pl => rfl

/-- Function `gobSerializer.unmarshal` is the head checks, then base64 and gob,
then the storing of the result. -/
theorem gob_unmarshal_stages {Vals Opts : Type} (F : FieldNames) (L : Lib Vals Opts)
    (name : String) (inp : Record) (T : Session Vals Opts) :
    gobSerializer.unmarshal F L name inp T =
      match readFields F L inp with
      | .error e => (some e, T)
      | .ok (id, pl) =>
        match L.base64Decode pl with
        | .error _ => (some .errDecodeFailed, T)
        | .ok data =>
          match L.gobDecode data with
          | .error _ => (some .errDecodeFailed, T)
          | .ok values => storeDecoded F L inp id values T := by
  unfold gobSerializer.unmarshal readFields storeDecoded
  by_cases h : inp.len = 0
  · simp [h]
  · simp only [h, if_false]
    cases inp.get? F.idField with
    | none => rfl
    | some av =>
      simp only []
      cases unmarshalString L av with
      | error e => rfl
      | ok id =>
        simp only []
        cases inp.get? F.valuesField with
        | none => rfl
        | some av1 =>
          simp only []
          cases unmarshalString L av1 with
          | error e => rfl
          | ok pl => rfl

/-- The head checks fail with `errNotFound` exactly on a record without fields
and otherwise with `errMalformedSession`. -/
theorem readFields_error {Vals Opts : Type} (F : FieldNames) (L : Lib Vals Opts)
    (inp : Record) (e : Error) (h : readFields F L inp = .error e) :
    (e = .errNotFound ∧ inp.len = 0) ∨ (e = .errMalformedSession ∧ inp.len ≠ 0) := by
  unfold readFields at h
  by_cases h0 : inp.len = 0
  · simp only [h0, if_true] at h
    cases h
    exact Or.inl ⟨rfl, h0⟩
  · right
    refine ⟨?_, h0⟩
    simp only [h0, if_false] at h
    repeat' split at h
    all_goals first
      | (cases h; rfl)
      | cases h

/-- The head checks pass exactly when the record has a field, and its identity
and values fields are present and read as strings. -/
theorem readFields_ok_iff {Vals Opts : Type} (F : FieldNames) (L : Lib Vals Opts)
    (inp : Record) (id pl : String) :
    readFields F L inp = .ok (id, pl) ↔
      inp.len ≠ 0 ∧
      (∃ av, inp.get? F.idField = some av ∧ unmarshalString L av = .ok id) ∧
      (∃ av1, inp.get? F.valuesField = some av1 ∧ unmarshalString L av1 = .ok pl) := by
  unfold readFields
  constructor
  · intro h
    by_cases h0 : inp.len = 0
    · simp [h0] at h
    · simp only [h0, if_false] at h
      refine ⟨h0, ?_⟩
      cases h1 : inp.get? F.idField with
      | none => simp [h1] at h
      | some av =>
        simp only [h1] at h
        cases h2 : unmarshalString L av with
        | error e => simp [h2] at h
        | ok id1 =>
          simp only [h2] at h
          cases h3 : inp.get? F.valuesField with
          | none => simp [h3] at h
          | some av1 =>
            simp only [h3] at h
            cases h4 : unmarshalString L av1 with
            | error e => simp [h4] at h
            | ok pl1 =>
              simp only [h4, Except.ok.injEq, Prod.mk.injEq] at h
              obtain ⟨hi, hp⟩ := h
              subst hi
              subst hp
              exact ⟨⟨av, rfl, h2⟩, ⟨av1, rfl, h4⟩⟩
  · rintro ⟨h0, ⟨av, h1, h2⟩, ⟨av1, h3, h4⟩⟩
    simp only [h0, if_false, h1, h2, h3, h4]

/-- The storing stage returns no error or the error of the options transcoder,
and always stores the identity, the values and `IsNew = false`. -/
theorem storeDecoded_session {Vals Opts : Type} (F : FieldNames) (L : Lib Vals Opts)
    (inp : Record) (id : String) (v : Vals) (T : Session Vals Opts) :
    (storeDecoded F L inp id v T).2.ID = id ∧ (storeDecoded F L inp id v T).2.Values = v ∧
      (storeDecoded F L inp id v T).2.IsNew = false := by
  unfold storeDecoded
  cases inp.get? F.optionsField with
  | none => exact ⟨rfl, rfl, rfl⟩
  | some av =>
    simp only []
    cases L.unmarshalOptions av with
    | error e => exact ⟨rfl, rfl, rfl⟩
    | ok o => exact ⟨rfl, rfl, rfl⟩

/-- Without an options field the storing stage leaves `Options` alone. -/
theorem storeDecoded_no_options {Vals Opts : Type} (F : FieldNames) (L : Lib Vals Opts)
    (inp : Record) (id : String) (v : Vals) (T : Session Vals Opts)
    (hno : inp.get? F.optionsField = none) :
    storeDecoded F L inp id v T = (none, { T with IsNew := false, ID := id, Values := v }) := by
  unfold storeDecoded
  rw [hno]

/-- With an options field the storing stage returns what the transcoder says. -/
theorem storeDecoded_options {Vals Opts : Type} (F : FieldNames) (L : Lib Vals Opts)
    (inp : Record) (id : String) (v : Vals) (T : Session Vals Opts) (av : AttributeValue)
    (hav : inp.get? F.optionsField = some av) :
    storeDecoded F L inp id v T =
      match L.unmarshalOptions av with
      | .error err => (some (.ext err), { T with IsNew := false, ID := id, Values := v })
      | .ok options =>
        (none, { ID := id, Values := v, Options := some options, IsNew := false }) := by
  unfold storeDecoded
  rw [hav]

/-- C11: for both serializers, a successful `unmarshal` of a record without an
options field leaves `session.Options` as it was before the call; and a record
that `marshal` built from a session with `Options = nil` has no options field,
so a session with `Options = nil` decoded from it still has `Options = nil`. -/
theorem unmarshal_without_options_keeps_options {Vals Opts : Type} (F : FieldNames)
    (L : Lib Vals Opts) (codecs : List (Codec Vals)) (name : String) (inp : Record)
    (T : Session Vals Opts) (hno : inp.get? F.optionsField = none) :
    (∀ T1, codecSerializer.unmarshal F L codecs name inp T = (none, T1) →
      T1.Options = T.Options) ∧
    (∀ T1, gobSerializer.unmarshal F L name inp T = (none, T1) → T1.Options = T.Options) ∧
    (∀ (S : Session Vals Opts) (R : Record) (T1 : Session Vals Opts), S.Options = none →
      codecSerializer.marshal F L codecs name S = (R, none) → T.Options = none →
      codecSerializer.unmarshal F L codecs name R T = (none, T1) → T1.Options = none) ∧
    (∀ (S : Session Vals Opts) (R : Record) (T1 : Session Vals Opts), S.Options = none →
      gobSerializer.marshal F L name S = (R, none) → T.Options = none →
      gobSerializer.unmarshal F L name R T = (none, T1) → T1.Options = none) := by
  have hc : ∀ (inp1 : Record) (T1 : Session Vals Opts), inp1.get? F.optionsField = none →
      codecSerializer.unmarshal F L codecs name inp1 T = (none, T1) →
      T1.Options = T.Options := by
    intro inp1 T1 hno1 h
    rw [codec_unmarshal_stages] at h
    cases hr : readFields F L inp1 with
    | error e => simp [hr] at h
    | ok p =>
      obtain ⟨id, pl⟩ := p
      simp only [hr] at h
      rcases hd : DecodeMulti name pl L.emptyValues codecs with ⟨e, v⟩
      cases e with
      | some err => simp [hd] at h
      | none =>
        simp only [hd, storeDecoded_no_options F L inp1 id v T hno1, Prod.mk.injEq,
          true_and] at h
        rw [← h]
  have hg : ∀ (inp1 : Record) (T1 : Session Vals Opts), inp1.get? F.optionsField = none →
      gobSerializer.unmarshal F L name inp1 T = (none, T1) → T1.Options = T.Options := by
    intro inp1 T1 hno1 h
    rw [gob_unmarshal_stages] at h
    cases hr : readFields F L inp1 with
    | error e => simp [hr] at h
    | ok p =>
      obtain ⟨id, pl⟩ := p
      simp only [hr] at h
      cases hb : L.base64Decode pl with
      | error e => simp [hb] at h
      | ok data =>
        simp only [hb] at h
        cases hgd : L.gobDecode data with
        | error e => simp [hgd] at h
        | ok v =>
          simp only [hgd, storeDecoded_no_options F L inp1 id v T hno1, Prod.mk.injEq,
            true_and] at h
          rw [← h]
  refine ⟨fun T1 h => hc inp T1 hno h, fun T1 h => hg inp T1 hno h, ?_, ?_⟩
  · intro S R T1 hS hm hT hu
    obtain ⟨payload, opts, _, hR, hO⟩ := codec_marshal_success F L codecs name S R hm
    have hopts : opts = none := by
      rcases hO with ⟨_, h⟩ | ⟨o, av, hSo, _, _⟩
      · exact h
      · rw [hS] at hSo
        cases hSo
    subst hR
    subst hopts
    rw [hc _ T1 (get?_marshalled F S.ID payload none).2.2 hu, hT]
  · intro S R T1 hS hm hT hu
    obtain ⟨buf, opts, _, hR, hO⟩ := gob_marshal_success F L name S R hm
    have hopts : opts = none := by
      rcases hO with ⟨_, h⟩ | ⟨o, av, hSo, _, _⟩
      · exact h
      · rw [hS] at hSo
        cases hSo
    subst hR
    subst hopts
    rw [hg _ T1 (get?_marshalled F S.ID _ none).2.2 hu, hT]

/-- The record of `alice`, which has no options field, decoded into the session
`bob` leaves the options of `bob`; decoded into a cleared session it leaves
`Options = nil`. -/
theorem unmarshal_without_options_keeps_options_witness :
    (codecSerializer.unmarshal Demo.fields Demo.lib [Demo.keyedCodec "k1" 0] "app"
        (some [("id", .S "s-1"), ("values", .S "k1|app|user=alice;")]) Demo.bob).2.Options
      = Demo.bob.Options ∧
    (gobSerializer.unmarshal Demo.fields Demo.lib "app"
        (some [("id", .S "s-1"), ("values", .S "dXNlcj1hbGljZTs=")]) Demo.blank).2.Options
      = none :=
  ⟨(unmarshal_without_options_keeps_options Demo.fields Demo.lib [Demo.keyedCodec "k1" 0]
      "app" (some [("id", .S "s-1"), ("values", .S "k1|app|user=alice;")]) Demo.bob rfl).1
      _ rfl,
    (unmarshal_without_options_keeps_options Demo.fields Demo.lib [Demo.keyedCodec "k1" 0]
      "app" (some [("id", .S "s-1"), ("values", .S "dXNlcj1hbGljZTs=")]) Demo.blank
      rfl).2.2.2 Demo.alice _ _ rfl rfl rfl rfl⟩

/-! ## Options round trip -/

/-- C12, as amended: for both serializers, every name and every session `S`
with options `o`, if `marshal name S` returns the record `R`, the payload of `R`
decodes under `name` (the codec chain validates the payload it produced; base64
and gob decode what they encoded) and the options transcoder reads `o` back
from the attribute it wrote for `o`, then `unmarshal name R T` returns no error
and leaves `T.Options` set to an options object equal to `o`. -/
theorem options_roundtrip {Vals Opts : Type} (F : FieldNames) (L : Lib Vals Opts)
    (name : String) (S T : Session Vals Opts) (o : Opts)
    (hS : S.Options = some o)
    (hinv : ∀ av, L.marshalOptions o = .ok av → L.unmarshalOptions av = .ok o) :
    (∀ (codecs : List (Codec Vals)) (R : Record),
      codecSerializer.marshal F L codecs name S = (R, none) →
      (∀ payload, EncodeMulti name S.Values codecs = .ok payload →
        (DecodeMulti name payload L.emptyValues codecs).1 = none) →
      ∃ T1, codecSerializer.unmarshal F L codecs name R T = (none, T1) ∧
        T1.Options = some o) ∧
    (∀ (R : Record),
      gobSerializer.marshal F L name S = (R, none) →
      (∀ buf, L.gobEncode S.Values = .ok buf →
        ∃ data v, L.base64Decode (L.base64Encode buf) = .ok data ∧ L.gobDecode data = .ok v) →
      ∃ T1, gobSerializer.unmarshal F L name R T = (none, T1) ∧ T1.Options = some o) := by
  constructor
  · intro codecs R hm hdec
    obtain ⟨payload, opts, hE, hR, hO⟩ := codec_marshal_success F L codecs name S R hm
    subst hR
    rcases hO with ⟨h0, _⟩ | ⟨o1, av, hSo, hmo, hopts⟩
    · rw [hS] at h0
      cases h0
    · rw [hS] at hSo
      cases hSo
      subst hopts
      obtain ⟨h1, h2, h3⟩ := get?_marshalled F S.ID payload (some av)
      rw [codec_unmarshal_of_strings F L codecs name _ T S.ID payload h1 h2]
      have hd := hdec payload hE
      rcases hdm : DecodeMulti name payload L.emptyValues codecs with ⟨e, v⟩
      rw [hdm] at hd
      simp only at hd
      subst hd
      simp only [h3, hinv av hmo]
      exact ⟨_, rfl, rfl⟩
  · intro R hm hdec
    obtain ⟨buf, opts, hE, hR, hO⟩ := gob_marshal_success F L name S R hm
    subst hR
    rcases hO with ⟨h0, _⟩ | ⟨o1, av, hSo, hmo, hopts⟩
    · rw [hS] at h0
      cases h0
    · rw [hS] at hSo
      cases hSo
      subst hopts
      obtain ⟨h1, h2, h3⟩ := get?_marshalled F S.ID (L.base64Encode buf) (some av)
      rw [gob_unmarshal_of_strings F L name _ T S.ID _ h1 h2]
      obtain ⟨data, v, hb, hg⟩ := hdec buf hE
      simp only [hb, hg, h3, hinv av hmo]
      exact ⟨_, rfl, rfl⟩

/-- The options of `bob` come back through a keyed codec and through gob. -/
theorem options_roundtrip_witness :
    (∃ T1, codecSerializer.unmarshal Demo.fields Demo.lib [Demo.keyedCodec "k1" 0] "app"
        (some [("id", .S "s-2"), ("values", .S "k1|app|user=bob;"),
          ("options", .M [("Path", .S "/"), ("Secure", .BOOL true)])]) Demo.blank = (none, T1) ∧
      T1.Options = some { Path := "/", Secure := true }) ∧
    (∃ T1, gobSerializer.unmarshal Demo.fields Demo.lib "app"
        (some [("id", .S "s-2"), ("values", .S "dXNlcj1ib2I7"),
          ("options", .M [("Path", .S "/"), ("Secure", .BOOL true)])]) Demo.blank = (none, T1) ∧
      T1.Options = some { Path := "/", Secure := true }) :=
  have hinv : ∀ av, Demo.lib.marshalOptions { Path := "/", Secure := true } = .ok av →
      Demo.lib.unmarshalOptions av = .ok { Path := "/", Secure := true } := by
    intro av h
    cases h
    rfl
  ⟨(options_roundtrip Demo.fields Demo.lib "app" Demo.bob Demo.blank
      { Path := "/", Secure := true } rfl hinv).1 [Demo.keyedCodec "k1" 0] _ rfl
      (fun payload h => by
        have h2 : EncodeMulti "app" Demo.bob.Values [Demo.keyedCodec "k1" 0]
            = .ok "k1|app|user=bob;" := rfl
        rw [h2] at h
        cases h
        rfl),
    (options_roundtrip Demo.fields Demo.lib "app" Demo.bob Demo.blank
      { Path := "/", Secure := true } rfl hinv).2 _ rfl
      (fun buf h => by
        have h2 : Demo.lib.gobEncode Demo.bob.Values
            = .ok [117, 115, 101, 114, 61, 98, 111, 98, 59] := rfl
        rw [h2] at h
        cases h
        exact ⟨_, _, rfl, rfl⟩)⟩

/-- C12 fails as stated: the options transcoder reads back every options object
it wrote and `marshal` returns a record for `bob`, who has options, but the one
codec of the chain has a minimum age and does not validate the fresh payload:
`unmarshal` returns `errDecodeFailed` and the options of the target stay nil. -/
theorem options_roundtrip_counterexample :
    (∀ (o : Demo.Options) (av : AttributeValue), Demo.lib.marshalOptions o = .ok av →
      Demo.lib.unmarshalOptions av = .ok o) ∧
    codecSerializer.marshal Demo.fields Demo.lib [Demo.minAgeCodec "old"] "app" Demo.bob
      = (some [("id", .S "s-2"), ("values", .S "old|app|user=bob;"),
          ("options", .M [("Path", .S "/"), ("Secure", .BOOL true)])], none) ∧
    codecSerializer.unmarshal Demo.fields Demo.lib [Demo.minAgeCodec "old"] "app"
      (some [("id", .S "s-2"), ("values", .S "old|app|user=bob;"),
        ("options", .M [("Path", .S "/"), ("Secure", .BOOL true)])]) Demo.blank
      = (some Error.errDecodeFailed, Demo.blank) ∧
    Demo.blank.Options = none :=
  ⟨fun o av h => by
      cases h
      rfl,
    rfl, rfl, rfl⟩

/-! ## The gob serializer and `name` -/

/-- C13: `gobSerializer` ignores `name`. For every pair of names and every
session, `marshal` returns the same record and the same error under both names;
for every record and session, `unmarshal` returns the same error and leaves the
same session under both names. In particular a record that decodes under the
name it was encoded with decodes to the same session under any other name, and
it decodes without error under any name when base64 and gob decode what they
encoded and the options transcoder reads back the attribute it wrote. -/
theorem gob_ignores_name {Vals Opts : Type} (F : FieldNames) (L : Lib Vals Opts)
    (n1 n2 : String) (S T : Session Vals Opts) :
    gobSerializer.marshal F L n1 S = gobSerializer.marshal F L n2 S ∧
    (∀ (R : Record) (T0 : Session Vals Opts),
      gobSerializer.unmarshal F L n1 R T0 = gobSerializer.unmarshal F L n2 R T0) ∧
    (∀ (R : Record) (T1 : Session Vals Opts),
      gobSerializer.marshal F L n1 S = (R, none) →
      gobSerializer.unmarshal F L n1 R T = (none, T1) →
      gobSerializer.unmarshal F L n2 R T = (none, T1)) ∧
    (∀ (R : Record) (buf : List UInt8),
      gobSerializer.marshal F L n1 S = (R, none) →
      L.gobEncode S.Values = .ok buf →
      L.base64Decode (L.base64Encode buf) = .ok buf →
      L.gobDecode buf = .ok S.Values →
      (∀ o av, S.Options = some o → L.marshalOptions o = .ok av →
        ∃ o1, L.unmarshalOptions av = .ok o1) →
      ∃ T1, gobSerializer.unmarshal F L n2 R T = (none, T1) ∧
        T1.ID = S.ID ∧ T1.Values = S.Values ∧ T1.IsNew = false) := by
  refine ⟨rfl, fun _ _ => rfl, fun _ _ _ h => h, ?_⟩
  intro R buf hm henc hb64 hgob hopts
  obtain ⟨b, opts, hE, hR, hO⟩ := gob_marshal_success F L n1 S R hm
  rw [henc] at hE
  cases hE
  subst hR
  exact gob_unmarshal_of_payload_success F L n2 T S.ID _ opts buf S.Values hb64 hgob
    (opts_readable L S opts hO hopts)

/-- The record of `alice` written under `app` is the record written under
`other`, and it decodes under `other`. -/
theorem gob_ignores_name_witness :
    gobSerializer.marshal Demo.fields Demo.lib "app" Demo.alice
      = gobSerializer.marshal Demo.fields Demo.lib "other" Demo.alice ∧
    gobSerializer.unmarshal Demo.fields Demo.lib "other"
      (some [("id", .S "s-1"), ("values", .S "dXNlcj1hbGljZTs=")]) Demo.blank
      = (none, { ID := "s-1", Values := [("user", "alice")], Options := none, IsNew := false }) :=
  ⟨(gob_ignores_name Demo.fields Demo.lib "app" "other" Demo.alice Demo.blank).1,
    (gob_ignores_name Demo.fields Demo.lib "app" "other" Demo.alice Demo.blank).2.2.1
      (some [("id", .S "s-1"), ("values", .S "dXNlcj1hbGljZTs=")]) _ rfl rfl⟩

/-! ## Failures of `marshal` -/

/-- When every codec of the chain refuses the value, the loop of `EncodeMulti`
ends with an error. -/
theorem EncodeMulti.loop_error_of_all_reject {Vals : Type} (name : String) (value : Vals)
    (codecs : List (Codec Vals)) (errors : List LibError)
    (h : ∀ c ∈ codecs, ∃ e, c.Encode name value = .error e) :
    ∃ e, EncodeMulti.loop name value codecs errors = .error e := by
  induction codecs generalizing errors with
  | nil => exact ⟨_, rfl⟩
  | cons c rest ih =>
    obtain ⟨e, he⟩ := h c (List.mem_cons_self c rest)
    simp only [EncodeMulti.loop, he]
    exact ih _ (fun c1 hc1 => h c1 (List.mem_cons_of_mem c hc1))

theorem EncodeMulti_error_of_all_reject {Vals : Type} (name : String) (value : Vals)
    (codecs : List (Codec Vals))
    (h : ∀ c ∈ codecs, ∃ e, c.Encode name value = .error e) :
    ∃ e, EncodeMulti name value codecs = .error e := by
  unfold EncodeMulti
  split
  · exact ⟨_, rfl⟩
  · exact EncodeMulti.loop_error_of_all_reject name value codecs [] h

/-- C14: for both serializers, every name and every session: when the payload
encoder refuses `session.Values` (every codec of the chain refuses them, or gob
does) `marshal` returns `errEncodeFailed`, as it does whenever `EncodeMulti`
returns an error; when the options transcoder fails
with `e` after the payload was encoded `marshal` returns `e`; and whenever
`marshal` returns an error the record it returns is nil. -/
theorem marshal_failure {Vals Opts : Type} (F : FieldNames) (L : Lib Vals Opts)
    (codecs : List (Codec Vals)) (name : String) (S : Session Vals Opts) :
    (∀ e, EncodeMulti name S.Values codecs = .error e →
      codecSerializer.marshal F L codecs name S = (none, some Error.errEncodeFailed)) ∧
    ((∀ c ∈ codecs, ∃ e, c.Encode name S.Values = .error e) →
      codecSerializer.marshal F L codecs name S = (none, some Error.errEncodeFailed)) ∧
    (∀ e, L.gobEncode S.Values = .error e →
      gobSerializer.marshal F L name S = (none, some Error.errEncodeFailed)) ∧
    (∀ payload o e, EncodeMulti name S.Values codecs = .ok payload → S.Options = some o →
      L.marshalOptions o = .error e →
      codecSerializer.marshal F L codecs name S = (none, some (Error.ext e))) ∧
    (∀ buf o e, L.gobEncode S.Values = .ok buf → S.Options = some o →
      L.marshalOptions o = .error e →
      gobSerializer.marshal F L name S = (none, some (Error.ext e))) ∧
    (∀ R err, codecSerializer.marshal F L codecs name S = (R, some err) → R = none) ∧
    (∀ R err, gobSerializer.marshal F L name S = (R, some err) → R = none) := by
  refine ⟨?_, ?_, ?_, ?_, ?_, ?_, ?_⟩
  · intro e he
    simp [codecSerializer.marshal, he]
  · intro h
    obtain ⟨e, he⟩ := EncodeMulti_error_of_all_reject name S.Values codecs h
    simp [codecSerializer.marshal, he]
  · intro e he
    simp [gobSerializer.marshal, he]
  · intro payload o e henc hS hmo
    rw [codec_marshal_of_payload F L codecs name S payload henc]
    simp only [hS, hmo]
  · intro buf o e henc hS hmo
    rw [gob_marshal_of_payload F L name S buf henc]
    simp only [hS, hmo]
  · intro R err hm
    cases henc : EncodeMulti name S.Values codecs with
    | error e =>
      simp only [codecSerializer.marshal, henc, Prod.mk.injEq] at hm
      exact hm.1.symm
    | ok payload =>
      rw [codec_marshal_of_payload F L codecs name S payload henc] at hm
      cases hO : S.Options with
      | none => simp [hO] at hm
      | some o =>
        cases hmo : L.marshalOptions o with
        | error e =>
          simp only [hO, hmo, Prod.mk.injEq] at hm
          exact hm.1.symm
        | ok av => simp [hO, hmo] at hm
  · intro R err hm
    cases henc : L.gobEncode S.Values with
    | error e =>
      simp only [gobSerializer.marshal, henc, Prod.mk.injEq] at hm
      exact hm.1.symm
    | ok buf =>
      rw [gob_marshal_of_payload F L name S buf henc] at hm
      cases hO : S.Options with
      | none => simp [hO] at hm
      | some o =>
        cases hmo : L.marshalOptions o with
        | error e =>
          simp only [hO, hmo, Prod.mk.injEq] at hm
          exact hm.1.symm
        | ok av => simp [hO, hmo] at hm

/-- The values of `dave` have no text form and are refused by the codec and by
gob; the options of `erin` are refused by the transcoder. -/
theorem marshal_failure_witness :
    codecSerializer.marshal Demo.fields Demo.lib [Demo.keyedCodec "k1" 0] "app" Demo.dave
      = (none, some Error.errEncodeFailed) ∧
    gobSerializer.marshal Demo.fields Demo.lib "app" Demo.dave
      = (none, some Error.errEncodeFailed) ∧
    codecSerializer.marshal Demo.fields Demo.pickyLib [Demo.keyedCodec "k1" 0] "app" Demo.erin
      = (none, some (Error.ext (.msg "marshal failed, the path is empty"))) ∧
    gobSerializer.marshal Demo.fields Demo.pickyLib "app" Demo.erin
      = (none, some (Error.ext (.msg "marshal failed, the path is empty"))) ∧
    (none : Record) = none :=
  ⟨(marshal_failure Demo.fields Demo.lib [Demo.keyedCodec "k1" 0] "app" Demo.dave).2.1
      (fun c hc => by
        rw [List.mem_singleton] at hc
        subst hc
        exact ⟨_, rfl⟩),
    (marshal_failure Demo.fields Demo.lib [Demo.keyedCodec "k1" 0] "app" Demo.dave).2.2.1 _ rfl,
    (marshal_failure Demo.fields Demo.pickyLib [Demo.keyedCodec "k1" 0] "app"
      Demo.erin).2.2.2.1 "k1|app|user=erin;" _ _ rfl rfl rfl,
    (marshal_failure Demo.fields Demo.pickyLib [Demo.keyedCodec "k1" 0] "app"
      Demo.erin).2.2.2.2.1 _ _ _ rfl rfl rfl,
    (marshal_failure Demo.fields Demo.pickyLib [Demo.keyedCodec "k1" 0] "app"
      Demo.erin).2.2.2.2.2.1 none _ rfl⟩

/-! ## Errors of the options transcoder on decode -/

/-- The storing stage returns no error or an error of the options transcoder. -/
theorem storeDecoded_error {Vals Opts : Type} (F : FieldNames) (L : Lib Vals Opts)
    (inp : Record) (id : String) (v : Vals) (T : Session Vals Opts) :
    (storeDecoded F L inp id v T).1 = none ∨
      ∃ e, (storeDecoded F L inp id v T).1 = some (Error.ext e) := by
  unfold storeDecoded
  cases inp.get? F.optionsField with
  | none => exact Or.inl rfl
  | some av =>
    simp only []
    cases L.unmarshalOptions av with
    | error e => exact Or.inr ⟨e, rfl⟩
    | ok o => exact Or.inl rfl

/-- C15: for both serializers, when the identity field and the values field of
a record read as strings, the payload decodes, and transcoding the options
field that is present fails with the error `e`, `unmarshal` returns `e` as it
is, which is neither `errMalformedSession` nor `errDecodeFailed`. -/
theorem unmarshal_options_error_unwrapped {Vals Opts : Type} (F : FieldNames)
    (L : Lib Vals Opts) (name : String) (inp : Record) (T : Session Vals Opts)
    (av av1 av2 : AttributeValue) (id pl : String) (e : LibError)
    (hid : inp.get? F.idField = some av) (hids : unmarshalString L av = .ok id)
    (hpl : inp.get? F.valuesField = some av1) (hpls : unmarshalString L av1 = .ok pl)
    (hopt : inp.get? F.optionsField = some av2) (herr : L.unmarshalOptions av2 = .error e) :
    (∀ (codecs : List (Codec Vals)) (v : Vals),
      DecodeMulti name pl L.emptyValues codecs = (none, v) →
      (codecSerializer.unmarshal F L codecs name inp T).1 = some (Error.ext e)) ∧
    (∀ (data : List UInt8) (v : Vals),
      L.base64Decode pl = .ok data → L.gobDecode data = .ok v →
      (gobSerializer.unmarshal F L name inp T).1 = some (Error.ext e)) ∧
    Error.ext e ≠ Error.errMalformedSession ∧ Error.ext e ≠ Error.errDecodeFailed := by
  have hr : readFields F L inp = .ok (id, pl) :=
    (readFields_ok_iff F L inp id pl).mpr
      ⟨Record.len_ne_zero_of_get? inp _ _ hid, ⟨av, hid, hids⟩, ⟨av1, hpl, hpls⟩⟩
  refine ⟨?_, ?_, ?_, ?_⟩
  · intro codecs v hd
    rw [codec_unmarshal_stages]
    simp only [hr, hd, storeDecoded_options F L inp id v T av2 hopt, herr]
  · intro data v hb hg
    rw [gob_unmarshal_stages]
    simp only [hr, hb, hg, storeDecoded_options F L inp id v T av2 hopt, herr]
  · intro h
    cases h
  · intro h
    cases h

/-- A record whose options field is a string attribute: both serializers return
the error of the transcoder. -/
theorem unmarshal_options_error_unwrapped_witness :
    (codecSerializer.unmarshal Demo.fields Demo.lib [Demo.keyedCodec "k1" 0] "app"
        (some [("id", .S "s-1"), ("values", .S "k1|app|user=alice;"), ("options", .S "oops")])
        Demo.blank).1
      = some (Error.ext (.msg "unmarshal failed, cannot unmarshal to Options")) ∧
    (gobSerializer.unmarshal Demo.fields Demo.lib "app"
        (some [("id", .S "s-1"), ("values", .S "dXNlcj1hbGljZTs="), ("options", .S "oops")])
        Demo.blank).1
      = some (Error.ext (.msg "unmarshal failed, cannot unmarshal to Options")) :=
  ⟨(unmarshal_options_error_unwrapped Demo.fields Demo.lib "app"
      (some [("id", .S "s-1"), ("values", .S "k1|app|user=alice;"), ("options", .S "oops")])
      Demo.blank (.S "s-1") (.S "k1|app|user=alice;") (.S "oops") "s-1" "k1|app|user=alice;"
      (.msg "unmarshal failed, cannot unmarshal to Options") rfl rfl rfl rfl rfl rfl).1
      [Demo.keyedCodec "k1" 0] _ rfl,
    (unmarshal_options_error_unwrapped Demo.fields Demo.lib "app"
      (some [("id", .S "s-1"), ("values", .S "dXNlcj1hbGljZTs="), ("options", .S "oops")])
      Demo.blank (.S "s-1") (.S "dXNlcj1hbGljZTs=") (.S "oops") "s-1" "dXNlcj1hbGljZTs="
      (.msg "unmarshal failed, cannot unmarshal to Options") rfl rfl rfl rfl rfl rfl).2.1
      _ _ rfl rfl⟩

/-! ## The two serializers make the same head checks -/

/-- An error that is neither `errDecodeFailed` nor an error of an imported
package is returned by `codecSerializer.unmarshal` exactly when the head checks
fail with it. -/
theorem codec_unmarshal_head_error {Vals Opts : Type} (F : FieldNames) (L : Lib Vals Opts)
    (codecs : List (Codec Vals)) (name : String) (inp : Record) (T : Session Vals Opts)
    (e : Error) (h1 : e ≠ Error.errDecodeFailed) (h2 : ∀ x, e ≠ Error.ext x) :
    (codecSerializer.unmarshal F L codecs name inp T).1 = some e ↔
      readFields F L inp = .error e := by
  rw [codec_unmarshal_stages]
  cases hr : readFields F L inp with
  | error e1 => simp
  | ok p =>
    obtain ⟨id, pl⟩ := p
    simp only []
    rcases hd : DecodeMulti name pl L.emptyValues codecs with ⟨err, v⟩
    cases err with
    | some x =>
      simp only [Option.some.injEq]
      constructor
      · intro h
        exact absurd h.symm h1
      · intro h
        cases h
    | none =>
      simp only []
      constructor
      · intro h
        rcases storeDecoded_error F L inp id v T with h3 | ⟨x, h3⟩
        · rw [h3] at h
          cases h
        · rw [h3] at h
          cases h
          exact absurd rfl (h2 x)
      · intro h
        cases h

/-- An error that is neither `errDecodeFailed` nor an error of an imported
package is returned by `gobSerializer.unmarshal` exactly when the head checks
fail with it. -/
theorem gob_unmarshal_head_error {Vals Opts : Type} (F : FieldNames) (L : Lib Vals Opts)
    (name : String) (inp : Record) (T : Session Vals Opts)
    (e : Error) (h1 : e ≠ Error.errDecodeFailed) (h2 : ∀ x, e ≠ Error.ext x) :
    (gobSerializer.unmarshal F L name inp T).1 = some e ↔
      readFields F L inp = .error e := by
  rw [gob_unmarshal_stages]
  cases hr : readFields F L inp with
  | error e1 => simp
  | ok p =>
    obtain ⟨id, pl⟩ := p
    simp only []
    have hno : ∀ (r : Option Error × Session Vals Opts), r.1 = some Error.errDecodeFailed →
        (r.1 = some e ↔ (Except.ok (id, pl) : Except Error (String × String)) = .error e) := by
      intro r hr1
      rw [hr1]
      constructor
      · intro h
        cases h
        exact absurd rfl h1
      · intro h
        cases h
    cases hb : L.base64Decode pl with
    | error x => exact hno _ rfl
    | ok data =>
      simp only []
      cases hg : L.gobDecode data with
      | error x => exact hno _ rfl
      | ok v =>
        simp only []
        constructor
        · intro h
          rcases storeDecoded_error F L inp id v T with h3 | ⟨x, h3⟩
          · rw [h3] at h
            cases h
          · rw [h3] at h
            cases h
            exact absurd rfl (h2 x)
        · intro h
          cases h

/-- The head checks fail with `errNotFound` exactly on a record without fields. -/
theorem readFields_errNotFound_iff {Vals Opts : Type} (F : FieldNames) (L : Lib Vals Opts)
    (inp : Record) : readFields F L inp = .error Error.errNotFound ↔ inp.len = 0 := by
  constructor
  · intro h
    rcases readFields_error F L inp _ h with ⟨_, h0⟩ | ⟨h1, _⟩
    · exact h0
    · cases h1
  · intro h
    simp [readFields, h]

/-- C16: the two serializers make the same empty and malformed checks. For
every record, name, session and codec chain, `codecSerializer.unmarshal`
returns `errNotFound` exactly when `gobSerializer.unmarshal` does, namely on a
record without fields, and it returns `errMalformedSession` exactly when
`gobSerializer.unmarshal` does. -/
theorem unmarshal_same_head_checks {Vals Opts : Type} (F : FieldNames) (L : Lib Vals Opts)
    (codecs : List (Codec Vals)) (name : String) (inp : Record) (T : Session Vals Opts) :
    ((codecSerializer.unmarshal F L codecs name inp T).1 = some Error.errNotFound ↔
      (gobSerializer.unmarshal F L name inp T).1 = some Error.errNotFound) ∧
    ((codecSerializer.unmarshal F L codecs name inp T).1 = some Error.errMalformedSession ↔
      (gobSerializer.unmarshal F L name inp T).1 = some Error.errMalformedSession) ∧
    ((codecSerializer.unmarshal F L codecs name inp T).1 = some Error.errNotFound ↔
      inp.len = 0) := by
  refine ⟨?_, ?_, ?_⟩
  · rw [codec_unmarshal_head_error F L codecs name inp T _ (by intro h; cases h)
        (by intro x h; cases h),
      gob_unmarshal_head_error F L name inp T _ (by intro h; cases h) (by intro x h; cases h)]
  · rw [codec_unmarshal_head_error F L codecs name inp T _ (by intro h; cases h)
        (by intro x h; cases h),
      gob_unmarshal_head_error F L name inp T _ (by intro h; cases h) (by intro x h; cases h)]
  · rw [codec_unmarshal_head_error F L codecs name inp T _ (by intro h; cases h)
      (by intro x h; cases h)]
    exact readFields_errNotFound_iff F L inp

/-! ## When `unmarshal` succeeds -/

/-- The storing stage returns no error exactly when the options field is absent
or transcodes. -/
theorem storeDecoded_ok_iff {Vals Opts : Type} (F : FieldNames) (L : Lib Vals Opts)
    (inp : Record) (id : String) (v : Vals) (T : Session Vals Opts) :
    (storeDecoded F L inp id v T).1 = none ↔
      (inp.get? F.optionsField = none ∨
        ∃ av2 o, inp.get? F.optionsField = some av2 ∧ L.unmarshalOptions av2 = .ok o) := by
  unfold storeDecoded
  cases h : inp.get? F.optionsField with
  | none => simp
  | some av =>
    simp only []
    cases h2 : L.unmarshalOptions av with
    | error e => simp [h2]
    | ok o => simp [h2]

/-- When the chain decodes, one of its codecs validated the value. -/
theorem DecodeMulti_ok_some_codec {Vals : Type} (name value : String)
    (codecs : List (Codec Vals)) (dst : Vals)
    (h : (DecodeMulti name value dst codecs).1 = none) :
    ∃ c ∈ codecs, ∃ d : Vals, (c.Decode name value d).1 = none := by
  by_contra hcon
  push_neg at hcon
  exact DecodeMulti_fails name value codecs dst hcon h

/-- C17: for both serializers, `unmarshal` returns no error exactly when the
record has a field, its identity field is present and reads as a string, its
values field is present and reads as a string, the payload decodes (the codec
chain returns no error under `name`, which takes a codec of the chain that
validates it; or base64 and then gob decode it), and the options field is
absent or transcodes. In that case the session ends with the identity read, the
value map decoded into a fresh map (whatever the session held) and
`IsNew = false`. -/
theorem unmarshal_success_iff {Vals Opts : Type} (F : FieldNames) (L : Lib Vals Opts)
    (codecs : List (Codec Vals)) (name : String) (inp : Record) (T : Session Vals Opts) :
    ((codecSerializer.unmarshal F L codecs name inp T).1 = none ↔
      ∃ id pl, (inp.len ≠ 0 ∧
        (∃ av, inp.get? F.idField = some av ∧ unmarshalString L av = .ok id) ∧
        (∃ av1, inp.get? F.valuesField = some av1 ∧ unmarshalString L av1 = .ok pl)) ∧
        (DecodeMulti name pl L.emptyValues codecs).1 = none ∧
        (inp.get? F.optionsField = none ∨
          ∃ av2 o, inp.get? F.optionsField = some av2 ∧ L.unmarshalOptions av2 = .ok o)) ∧
    ((gobSerializer.unmarshal F L name inp T).1 = none ↔
      ∃ id pl data v, (inp.len ≠ 0 ∧
        (∃ av, inp.get? F.idField = some av ∧ unmarshalString L av = .ok id) ∧
        (∃ av1, inp.get? F.valuesField = some av1 ∧ unmarshalString L av1 = .ok pl)) ∧
        L.base64Decode pl = .ok data ∧ L.gobDecode data = .ok v ∧
        (inp.get? F.optionsField = none ∨
          ∃ av2 o, inp.get? F.optionsField = some av2 ∧ L.unmarshalOptions av2 = .ok o)) ∧
    (∀ id pl, (inp.len ≠ 0 ∧
        (∃ av, inp.get? F.idField = some av ∧ unmarshalString L av = .ok id) ∧
        (∃ av1, inp.get? F.valuesField = some av1 ∧ unmarshalString L av1 = .ok pl)) →
      (codecSerializer.unmarshal F L codecs name inp T).1 = none →
      (codecSerializer.unmarshal F L codecs name inp T).2.ID = id ∧
      (codecSerializer.unmarshal F L codecs name inp T).2.Values
        = (DecodeMulti name pl L.emptyValues codecs).2 ∧
      (codecSerializer.unmarshal F L codecs name inp T).2.IsNew = false) ∧
    (∀ id pl data v, (inp.len ≠ 0 ∧
        (∃ av, inp.get? F.idField = some av ∧ unmarshalString L av = .ok id) ∧
        (∃ av1, inp.get? F.valuesField = some av1 ∧ unmarshalString L av1 = .ok pl)) →
      L.base64Decode pl = .ok data → L.gobDecode data = .ok v →
      (gobSerializer.unmarshal F L name inp T).1 = none →
      (gobSerializer.unmarshal F L name inp T).2.ID = id ∧
      (gobSerializer.unmarshal F L name inp T).2.Values = v ∧
      (gobSerializer.unmarshal F L name inp T).2.IsNew = false) ∧
    (∀ pl, (DecodeMulti name pl L.emptyValues codecs).1 = none →
      ∃ c ∈ codecs, ∃ d : Vals, (c.Decode name pl d).1 = none) := by
  refine ⟨?_, ?_, ?_, ?_, ?_⟩
  · rw [codec_unmarshal_stages]
    constructor
    · intro h
      cases hr : readFields F L inp with
      | error e => simp [hr] at h
      | ok p =>
        obtain ⟨id, pl⟩ := p
        simp only [hr] at h
        rcases hd : DecodeMulti name pl L.emptyValues codecs with ⟨e, v⟩
        cases e with
        | some x => simp [hd] at h
        | none =>
          simp only [hd] at h
          exact ⟨id, pl, (readFields_ok_iff F L inp id pl).mp hr, by rw [hd],
            (storeDecoded_ok_iff F L inp id v T).mp h⟩
    · rintro ⟨id, pl, hread, hd, hopts⟩
      rcases hdm : DecodeMulti name pl L.emptyValues codecs with ⟨e, v⟩
      rw [hdm] at hd
      simp only at hd
      subst hd
      simp only [(readFields_ok_iff F L inp id pl).mpr hread, hdm]
      exact (storeDecoded_ok_iff F L inp id v T).mpr hopts
  · rw [gob_unmarshal_stages]
    constructor
    · intro h
      cases hr : readFields F L inp with
      | error e => simp [hr] at h
      | ok p =>
        obtain ⟨id, pl⟩ := p
        simp only [hr] at h
        cases hb : L.base64Decode pl with
        | error x => simp [hb] at h
        | ok data =>
          simp only [hb] at h
          cases hg : L.gobDecode data with
          | error x => simp [hg] at h
          | ok v =>
            simp only [hg] at h
            exact ⟨id, pl, data, v, (readFields_ok_iff F L inp id pl).mp hr, hb, hg,
              (storeDecoded_ok_iff F L inp id v T).mp h⟩
    · rintro ⟨id, pl, data, v, hread, hb, hg, hopts⟩
      simp only [(readFields_ok_iff F L inp id pl).mpr hread, hb, hg]
      exact (storeDecoded_ok_iff F L inp id v T).mpr hopts
  · intro id pl hread h
    rw [codec_unmarshal_stages] at h ⊢
    simp only [(readFields_ok_iff F L inp id pl).mpr hread] at h ⊢
    rcases hdm : DecodeMulti name pl L.emptyValues codecs with ⟨e, v⟩
    cases e with
    | some x => simp [hdm] at h
    | none =>
      simp only []
      exact storeDecoded_session F L inp id v T
  · intro id pl data v hread hb hg _
    rw [gob_unmarshal_stages]
    simp only [(readFields_ok_iff F L inp id pl).mpr hread, hb, hg]
    exact storeDecoded_session F L inp id v T
  · intro pl h
    exact DecodeMulti_ok_some_codec name pl codecs _ h

/-- The record of `bob` decodes into a session that was in use: the values the
session held are replaced. -/
theorem unmarshal_success_iff_witness :
    ((codecSerializer.unmarshal Demo.fields Demo.lib [Demo.keyedCodec "k1" 0] "app"
        (some [("id", .S "s-2"), ("values", .S "k1|app|user=bob;"),
          ("options", .M [("Path", .S "/"), ("Secure", .BOOL true)])]) Demo.loaded).2.ID = "s-2" ∧
      (codecSerializer.unmarshal Demo.fields Demo.lib [Demo.keyedCodec "k1" 0] "app"
        (some [("id", .S "s-2"), ("values", .S "k1|app|user=bob;"),
          ("options", .M [("Path", .S "/"), ("Secure", .BOOL true)])]) Demo.loaded).2.Values
        = (DecodeMulti "app" "k1|app|user=bob;" Demo.lib.emptyValues
            [Demo.keyedCodec "k1" 0]).2 ∧
      (codecSerializer.unmarshal Demo.fields Demo.lib [Demo.keyedCodec "k1" 0] "app"
        (some [("id", .S "s-2"), ("values", .S "k1|app|user=bob;"),
          ("options", .M [("Path", .S "/"), ("Secure", .BOOL true)])]) Demo.loaded).2.IsNew
        = false) ∧
    (gobSerializer.unmarshal Demo.fields Demo.lib "app"
        (some [("id", .S "s-2"), ("values", .S "dXNlcj1ib2I7"),
          ("options", .M [("Path", .S "/"), ("Secure", .BOOL true)])]) Demo.loaded).2.Values
      = [("user", "bob")] :=
  ⟨(unmarshal_success_iff Demo.fields Demo.lib [Demo.keyedCodec "k1" 0] "app"
      (some [("id", .S "s-2"), ("values", .S "k1|app|user=bob;"),
        ("options", .M [("Path", .S "/"), ("Secure", .BOOL true)])]) Demo.loaded).2.2.1
      "s-2" "k1|app|user=bob;" ⟨by decide, ⟨_, rfl, rfl⟩, ⟨_, rfl, rfl⟩⟩ rfl,
    ((unmarshal_success_iff Demo.fields Demo.lib [Demo.keyedCodec "k1" 0] "app"
      (some [("id", .S "s-2"), ("values", .S "dXNlcj1ib2I7"),
        ("options", .M [("Path", .S "/"), ("Secure", .BOOL true)])]) Demo.loaded).2.2.2.1
      "s-2" "dXNlcj1ib2I7" [117, 115, 101, 114, 61, 98, 111, 98, 59] [("user", "bob")]
      ⟨by decide, ⟨_, rfl, rfl⟩, ⟨_, rfl, rfl⟩⟩ rfl rfl rfl).2.1⟩

/-! ## The empty codec chain -/

/-- C18: a `codecSerializer` with an empty codec chain neither encodes nor
decodes. For every name and session `marshal` returns `errEncodeFailed` and a
nil record; for every name and every record whose identity and values fields
are string attributes `unmarshal` returns `errDecodeFailed` and leaves the
session as it was. -/
theorem empty_chain {Vals Opts : Type} (F : FieldNames) (L : Lib Vals Opts)
    (name : String) (S T : Session Vals Opts) :
    codecSerializer.marshal F L [] name S = (none, some Error.errEncodeFailed) ∧
    (∀ (inp : Record) (id pl : String),
      inp.get? F.idField = some (.S id) → inp.get? F.valuesField = some (.S pl) →
      codecSerializer.unmarshal F L [] name inp T = (some Error.errDecodeFailed, T)) := by
  constructor
  · simp [codecSerializer.marshal, EncodeMulti]
  · intro inp id pl hid hpl
    exact codec_unmarshal_of_chain_failure F L [] name inp T id pl hid hpl
      (by simp [DecodeMulti])

/-- Without codecs `alice` is not encoded and a record of hers is not decoded. -/
theorem empty_chain_witness :
    codecSerializer.marshal Demo.fields Demo.lib [] "app" Demo.alice
      = (none, some Error.errEncodeFailed) ∧
    codecSerializer.unmarshal Demo.fields Demo.lib [] "app"
      (some [("id", .S "s-1"), ("values", .S "k1|app|user=alice;")]) Demo.blank
      = (some Error.errDecodeFailed, Demo.blank) :=
  ⟨(empty_chain Demo.fields Demo.lib "app" Demo.alice Demo.blank).1,
    (empty_chain Demo.fields Demo.lib "app" Demo.alice Demo.blank).2
      (some [("id", .S "s-1"), ("values", .S "k1|app|user=alice;")]) "s-1"
      "k1|app|user=alice;" rfl rfl⟩

end Dynastore
